import Mathlib

/-!
A verification development for the kgroups repository (packages `cap`,
`relay`, `signer`).  JavaScript/TypeScript code is shallowly embedded:

* JS `Map`s become insertion-ordered association lists (`mapGet`, `mapSet`,
  `mapDel` mirror `Map.get` / `Map.set` / `Map.delete`), JS `Set`s become
  insertion-ordered duplicate-free lists (`setAdd`, `setDel`).
* JS numbers that the code only ever uses as non-negative integers
  (timestamps, kinds, lengths, indices) become `Nat`; values produced by
  `parseInt`, which can be negative, become `Int`.  A `parseInt` result of
  `NaN` in an optional field is modelled as `none`: every consumer of such a
  field in the source guards it with a JS truthiness test, under which `NaN`
  and `undefined` behave identically.
* External collaborators (nostr-tools signature verification, `JSON.parse`
  for tag pair lists, the `@cmdcode/frost` library, `Date.now`) are passed in
  as explicit function parameters: the embedded repository code is defined
  for an arbitrary choice of those parameters.
* Exceptions become `Except String` results carrying the thrown message.
-/

deriving instance DecidableEq for Except

namespace KG

/-- JS `Map.prototype.get`: look up a key in an insertion-ordered
association list. -/
def mapGet [DecidableEq α] (m : List (α × β)) (k : α) : Option β :=
  match m with
  | [] => none
  | (k', v) :: rest => if k' = k then some v else mapGet rest k

/-- JS `Map.prototype.set`: replace the value in place when the key is
present, otherwise append a new entry. -/
def mapSet [DecidableEq α] (m : List (α × β)) (k : α) (v : β) : List (α × β) :=
  match m with
  | [] => [(k, v)]
  | (k', v') :: rest => if k' = k then (k, v) :: rest else (k', v') :: mapSet rest k v

/-- JS `Map.prototype.delete` (ignoring the returned Bool). -/
def mapDel [DecidableEq α] (m : List (α × β)) (k : α) : List (α × β) :=
  match m with
  | [] => []
  | (k', v') :: rest => if k' = k then rest else (k', v') :: mapDel rest k

/-- JS `Set.prototype.add`: a no-op when the element is present, otherwise
append (JS sets preserve insertion order). -/
def setAdd [DecidableEq α] (s : List α) (a : α) : List α :=
  if a ∈ s then s else s ++ [a]

/-- JS `Set.prototype.delete`. -/
def setDel [DecidableEq α] (s : List α) (a : α) : List α :=
  s.filter (fun x => x ≠ a)

-- ============================================================================
-- Nostr events
-- ============================================================================

/-- A nostr event (`{ id, pubkey, created_at, kind, tags, content, sig }`). -/
structure Event where
  id : String
  pubkey : String
  created_at : Nat
  kind : Nat
  tags : List (List String)
  content : String := ""
  sig : String := ""
deriving DecidableEq

/-- `getTagValue` from `capability.js`: first value of the first tag whose
name matches (`tags.find(t => t[0] === tagName)?.[1]`). -/
def getTagValue (tags : List (List String)) (tagName : String) : Option String :=
  (tags.find? (fun t => t.head? == some tagName)).bind (fun t => t[1]?)

/-- `getTagValues` from `capability.js`: all values (`tag.slice(1)`) of the
first tag whose name matches. -/
def getTagValues (tags : List (List String)) (tagName : String) : List String :=
  match tags.find? (fun t => t.head? == some tagName) with
  | some t => t.drop 1
  | none => []

/-- `getGroupId` from `nip29.js`: the first value of the first `h` tag. -/
def getGroupId (e : Event) : Option String :=
  (e.tags.find? (fun t => t.head? == some "h")).bind (fun t => t[1]?)

/-- Value of the longest leading run of decimal digits; `none` when there is
no leading digit (JS `parseInt` returning `NaN`). -/
def digitsVal (cs : List Char) : Option Nat :=
  let ds := cs.takeWhile Char.isDigit
  if ds.isEmpty then none
  else some (ds.foldl (fun acc c => acc * 10 + (c.toNat - 48)) 0)

/-- JS `parseInt(s, 10)`: skip leading whitespace, optional sign, then the
longest run of decimal digits; `none` models `NaN`. -/
def jsParseInt (s : String) : Option Int :=
  let cs := s.toList.dropWhile (fun c => c = ' ' ∨ c = '\t' ∨ c = '\n' ∨ c = '\r')
  match cs with
  | '-' :: rest => (digitsVal rest).map (fun n => -(n : Int))
  | '+' :: rest => (digitsVal rest).map (fun n => (n : Int))
  | _ => (digitsVal cs).map (fun n => (n : Int))

-- ============================================================================
-- Capability data model (`packages/cap`)
-- ============================================================================

/-- `rateLimit` qualifier (`{ count, periodSeconds }`). -/
structure RateLimit where
  count : Int
  periodSeconds : Int
deriving DecidableEq

/-- `CapabilityQualifier` from `cap/src/types.ts`; `Option` marks which JS
fields are present on the object. -/
structure CapabilityQualifier where
  kinds : Option (List Int) := none
  requiredTags : Option (List (String × String)) := none
  excludedTags : Option (List (String × String)) := none
  rateLimit : Option RateLimit := none
deriving DecidableEq

/-- A link in a delegation chain. -/
structure DelegationLink where
  delegator : String
  delegatee : String
  eventId : String
deriving DecidableEq

/-- `Capability` from `cap/src/types.ts`. -/
structure Capability where
  type : String
  holder : String
  issuer : String
  issuedAt : Nat
  expiresAt : Option Int := none
  qualifiers : Option CapabilityQualifier := none
  delegationChain : Option (List DelegationLink) := none
deriving DecidableEq

/-- A parsed capability together with its source event. -/
structure CapabilityEvent where
  event : Event
  capability : Capability
deriving DecidableEq

/-- Parsed revocation event data. -/
structure RevocationEvent where
  event : Event
  revokedEventId : String
  groupPubkey : String
  revokedAt : Nat
deriving DecidableEq

/-- The valid capability type strings (`validTypes` in
`parseCapabilityGrantEvent`). -/
def validTypes : List String := ["read", "write", "publish", "delete", "delegate"]

/-- A `JSON.parse` oracle for `[string,string][]` payloads: the embedding is
parameterised by it (`none` models a parse exception, which the source
ignores). -/
def JsonPairsFn : Type := String → Option (List (String × String))

/-- `parseQualifiers` from `capability.js`. -/
def parseQualifiers (jsonPairs : JsonPairsFn) (tags : List (List String)) :
    CapabilityQualifier :=
  let kindsValues := getTagValues tags "kinds"
  let kinds : Option (List Int) :=
    if kindsValues.isEmpty then none
    else some (kindsValues.filterMap jsParseInt)
  let requiredTags : Option (List (String × String)) :=
    match getTagValue tags "required-tags" with
    | some s => if s = "" then none else jsonPairs s
    | none => none
  let excludedTags : Option (List (String × String)) :=
    match getTagValue tags "excluded-tags" with
    | some s => if s = "" then none else jsonPairs s
    | none => none
  let rateLimit : Option RateLimit :=
    match tags.find? (fun t => t.head? == some "rate-limit") with
    | some t =>
      if t.length ≥ 3 then
        match (t[1]?).bind jsParseInt, (t[2]?).bind jsParseInt with
        | some c, some p => some ⟨c, p⟩
        | _, _ => none
      else none
    | none => none
  { kinds := kinds, requiredTags := requiredTags,
    excludedTags := excludedTags, rateLimit := rateLimit }

/-- `Object.keys(qualifiers).length > 0` on the parsed qualifier object. -/
def CapabilityQualifier.isSet (q : CapabilityQualifier) : Bool :=
  q.kinds.isSome || q.requiredTags.isSome || q.excludedTags.isSome || q.rateLimit.isSome

/-- The `expiresAt` field built by the parse functions:
`expirationStr ? parseInt(expirationStr, 10) : undefined` (the empty string
is falsy; `NaN` is collapsed to `none`, see the header note). -/
def parseExpiresAt (tags : List (List String)) : Option Int :=
  match getTagValue tags "expiration" with
  | some s => if s = "" then none else jsParseInt s
  | none => none

/-- `parseCapabilityGrantEvent` from `capability.js`. -/
def parseCapabilityGrantEvent (jsonPairs : JsonPairsFn) (event : Event) :
    Option CapabilityEvent :=
  if event.kind ≠ 29000 then none
  else
    match getTagValue event.tags "p", getTagValue event.tags "capability" with
    | some holder, some type =>
      if holder = "" ∨ type = "" then none
      else if ¬ validTypes.contains type then none
      else
        let qualifiers := parseQualifiers jsonPairs event.tags
        some ⟨event,
          { type := type, holder := holder, issuer := event.pubkey,
            issuedAt := event.created_at,
            expiresAt := parseExpiresAt event.tags,
            qualifiers := if qualifiers.isSet then some qualifiers else none,
            delegationChain := none }⟩
    | _, _ => none

/-- `parseRevocationEvent` from `capability.js`. -/
def parseRevocationEvent (event : Event) : Option RevocationEvent :=
  if event.kind ≠ 29001 then none
  else
    match getTagValue event.tags "e" with
    | some rid =>
      if rid = "" then none
      else some ⟨event, rid, event.pubkey, event.created_at⟩
    | none => none

/-- `parseDelegationEvent` from `capability.js` (no `validTypes` check here,
matching the source). -/
def parseDelegationEvent (jsonPairs : JsonPairsFn) (event : Event)
    (originalCapability : Capability) : Option CapabilityEvent :=
  if event.kind ≠ 29002 then none
  else
    match getTagValue event.tags "p", getTagValue event.tags "capability",
        getTagValue event.tags "e" with
    | some holder, some type, some originalEventId =>
      if holder = "" ∨ type = "" ∨ originalEventId = "" then none
      else
        let qualifiers := parseQualifiers jsonPairs event.tags
        let delegationChain := (originalCapability.delegationChain.getD []) ++
          [⟨event.pubkey, holder, event.id⟩]
        some ⟨event,
          { type := type, holder := holder,
            issuer := originalCapability.issuer,
            issuedAt := event.created_at,
            expiresAt := parseExpiresAt event.tags,
            qualifiers := if qualifiers.isSet then some qualifiers else none,
            delegationChain := some delegationChain }⟩
    | _, _, _ => none

/-- `capabilityAllowsAction` from `capability.js`.  The kind restriction is
checked only when both an event kind is supplied and the capability carries a
`kinds` qualifier (a present-but-empty `kinds` list is a truthy JS array and
rejects every kind). -/
def capabilityAllowsAction (capability : Capability) (action : String)
    (eventKind : Option Nat) : Bool :=
  if capability.type ≠ action then false
  else
    match eventKind, capability.qualifiers.bind (fun q => q.kinds) with
    | some k, some ks => ks.contains (k : Int)
    | _, _ => true

/-- `isCapabilityExpired` from `capability.js`.  `!capability.expiresAt`
is true both for an absent field and for the value `0` (JS falsy zero), so a
zero expiry never expires. -/
def isCapabilityExpired (capability : Capability) (currentTime : Nat) : Bool :=
  match capability.expiresAt with
  | none => false
  | some t => if t = 0 then false else decide ((currentTime : Int) ≥ t)

/-- `eventMatchesRequiredTags` from `capability.js`. -/
def eventMatchesRequiredTags (eventTags : List (List String))
    (requiredTags : List (String × String)) : Bool :=
  requiredTags.all (fun p =>
    eventTags.any (fun t => t.head? == some p.1 && t[1]? == some p.2))

/-- `eventHasExcludedTags` from `capability.js`. -/
def eventHasExcludedTags (eventTags : List (List String))
    (excludedTags : List (String × String)) : Bool :=
  excludedTags.any (fun p =>
    eventTags.any (fun t => t.head? == some p.1 && t[1]? == some p.2))

-- ============================================================================
-- Capability validation (`cap/dist/validation.js`)
-- ============================================================================

/-- An abstract signature verifier standing for `verifyEvent` /
`context.verifySignature`. -/
def SigFn : Type := Event → Bool

/-- `validateCapabilityEvent` from `validation.js`; `Except.error` carries
the `error` string of an invalid `ValidationResult`. -/
def validateCapabilityEvent (sig : SigFn) (jsonPairs : JsonPairsFn)
    (revokedEventIds : List String) (currentTime : Nat)
    (event : Event) (expectedGroupPubkey : String) : Except String Capability :=
  if ¬ sig event then .error "Invalid event signature"
  else if event.kind ≠ 29000 then .error "Invalid event kind"
  else if event.pubkey ≠ expectedGroupPubkey then
    .error "Capability not issued by expected group"
  else
    match parseCapabilityGrantEvent jsonPairs event with
    | none => .error "Failed to parse capability event"
    | some capEvent =>
      if revokedEventIds.contains event.id then .error "Capability has been revoked"
      else if isCapabilityExpired capEvent.capability currentTime then
        .error "Capability has expired"
      else .ok capEvent.capability

/-- The expiry-comparison tail of `validateQualifiersSubset`
(`original.expiresAt && delegated.expiresAt` guards: JS truthiness, so an
expiry of `0` behaves like an absent one). -/
def subsetExpiryCheck (original delegated : Capability) : Except String Unit :=
  if original.expiresAt.getD 0 ≠ 0 ∧ delegated.expiresAt.getD 0 ≠ 0 then
    if delegated.expiresAt.getD 0 > original.expiresAt.getD 0 then
      .error "Delegated capability expires after original"
    else .ok ()
  else if original.expiresAt.getD 0 ≠ 0 ∧ delegated.expiresAt.getD 0 = 0 then
    .error "Delegated capability must have expiration"
  else .ok ()

/-- `validateQualifiersSubset` from `validation.js`: the kind-subset checks
followed by `subsetExpiryCheck`.  All the guards are JS truthiness tests, so
`expiresAt = 0` on either side behaves like an absent expiry. -/
def validateQualifiersSubset (original delegated : Capability) :
    Except String Unit :=
  match original.qualifiers.bind (fun q => q.kinds),
      delegated.qualifiers.bind (fun q => q.kinds) with
  | some oks, some dks =>
    match dks.find? (fun k => ¬ oks.contains k) with
    | some k =>
      .error ("Delegated kind " ++ toString k ++ " not in original capability")
    | none => subsetExpiryCheck original delegated
  | some _, none => .error "Delegated capability must specify kinds subset"
  | none, _ => subsetExpiryCheck original delegated

/-- `validateDelegatedCapability` from `validation.js`. -/
def validateDelegatedCapability (sig : SigFn) (jsonPairs : JsonPairsFn)
    (revokedEventIds : List String) (currentTime : Nat)
    (delegationEvent originalCapabilityEvent : Event)
    (expectedGroupPubkey : String) : Except String Capability :=
  match validateCapabilityEvent sig jsonPairs revokedEventIds currentTime
      originalCapabilityEvent expectedGroupPubkey with
  | .error e => .error ("Original capability invalid: " ++ e)
  | .ok originalCapability =>
    if originalCapability.type ≠ "delegate" then
      .error "Original capability does not allow delegation"
    else if ¬ sig delegationEvent then .error "Invalid delegation event signature"
    else if delegationEvent.pubkey ≠ originalCapability.holder then
      .error "Delegation not signed by capability holder"
    else if revokedEventIds.contains delegationEvent.id then
      .error "Delegation has been revoked"
    else
      match parseDelegationEvent jsonPairs delegationEvent originalCapability with
      | none => .error "Failed to parse delegation event"
      | some delegatedCap =>
        if isCapabilityExpired delegatedCap.capability currentTime then
          .error "Delegated capability has expired"
        else
          match validateQualifiersSubset originalCapability delegatedCap.capability with
          | .error e => .error e
          | .ok _ => .ok delegatedCap.capability

-- ============================================================================
-- Authorization decision (`checkAuthorization` in validation.js)
-- ============================================================================

/-- The optional context argument of `checkAuthorization`. -/
structure AuthContext where
  currentTime : Option Nat := none
  eventKind : Option Nat := none
  eventTags : Option (List (List String)) := none
deriving DecidableEq

/-- The result object of `checkAuthorization`. -/
inductive AuthResult where
  | authorized (capability : Capability)
  | denied (error : String)
deriving DecidableEq

/-- One iteration of the `checkAuthorization` loop: `true` exactly when none
of the `continue` guards fires for capability `c`. -/
def capPasses (c : Capability) (pubkey action : String) (t : Nat)
    (eventKind : Option Nat) (eventTags : Option (List (List String))) : Bool :=
  c.holder == pubkey &&
  !(isCapabilityExpired c t) &&
  capabilityAllowsAction c action eventKind &&
  (match c.qualifiers.bind (fun q => q.requiredTags), eventTags with
   | some rts, some tags => eventMatchesRequiredTags tags rts
   | _, _ => true) &&
  (match c.qualifiers.bind (fun q => q.excludedTags), eventTags with
   | some ets, some tags => !(eventHasExcludedTags tags ets)
   | _, _ => true)

/-- `checkAuthorization` from `validation.js`; `now` stands for
`Math.floor(Date.now() / 1000)`, used when the context carries no
`currentTime`. -/
def checkAuthorization (now : Nat) (capabilities : List Capability)
    (pubkey action : String) (context : AuthContext) : AuthResult :=
  let currentTime := context.currentTime.getD now
  match capabilities.find? (fun c =>
      capPasses c pubkey action currentTime context.eventKind context.eventTags) with
  | some cap => .authorized cap
  | none => .denied "No valid capability found"

-- ============================================================================
-- Capability store (`CapabilityStore` in validation.js)
-- ============================================================================

/-- The `CapabilityStore` fields: `capabilities` keyed by event id,
`revokedIds`, and the by-holder / by-issuer indexes of event-id sets. -/
structure CapStore where
  capabilities : List (String × CapabilityEvent) := []
  revokedIds : List String := []
  byHolder : List (String × List String) := []
  byIssuer : List (String × List String) := []
deriving DecidableEq

/-- The empty store (a freshly constructed `CapabilityStore`). -/
def CapStore.empty : CapStore := {}

/-- `CapabilityStore.addCapability`; `now` stands for the
`Math.floor(Date.now() / 1000)` computed in its body. -/
def CapStore.addCapability (sig : SigFn) (jsonPairs : JsonPairsFn) (now : Nat)
    (S : CapStore) (event : Event) (groupPubkey : String) :
    CapStore × Except String Capability :=
  match validateCapabilityEvent sig jsonPairs S.revokedIds now event groupPubkey with
  | .error e => (S, .error e)
  | .ok cap =>
    let capEvent : CapabilityEvent := ⟨event, cap⟩
    ({ capabilities := mapSet S.capabilities event.id capEvent,
       revokedIds := S.revokedIds,
       byHolder := mapSet S.byHolder cap.holder
         (setAdd ((mapGet S.byHolder cap.holder).getD []) event.id),
       byIssuer := mapSet S.byIssuer cap.issuer
         (setAdd ((mapGet S.byIssuer cap.issuer).getD []) event.id) },
     .ok cap)

/-- `CapabilityStore.addRevocation`. -/
def CapStore.addRevocation (sig : SigFn) (S : CapStore) (event : Event)
    (groupPubkey : String) : CapStore × Bool :=
  if event.pubkey ≠ groupPubkey then (S, false)
  else if ¬ sig event then (S, false)
  else
    match parseRevocationEvent event with
    | none => (S, false)
    | some revocation =>
      match mapGet S.capabilities revocation.revokedEventId with
      | some capEvent =>
        ({ capabilities := mapDel S.capabilities revocation.revokedEventId,
           revokedIds := setAdd S.revokedIds revocation.revokedEventId,
           byHolder :=
             match mapGet S.byHolder capEvent.capability.holder with
             | some s => mapSet S.byHolder capEvent.capability.holder
                 (setDel s revocation.revokedEventId)
             | none => S.byHolder,
           byIssuer :=
             match mapGet S.byIssuer capEvent.capability.issuer with
             | some s => mapSet S.byIssuer capEvent.capability.issuer
                 (setDel s revocation.revokedEventId)
             | none => S.byIssuer },
         true)
      | none =>
        ({ S with revokedIds := setAdd S.revokedIds revocation.revokedEventId },
         true)

/-- `CapabilityStore.getCapabilitiesForHolder`; `now` stands for the
`Date.now` call in its body. -/
def CapStore.getCapabilitiesForHolder (now : Nat) (S : CapStore)
    (holder : String) : List Capability :=
  match mapGet S.byHolder holder with
  | none => []
  | some eventIds =>
    eventIds.filterMap (fun eventId =>
      match mapGet S.capabilities eventId with
      | some capEvent =>
        if isCapabilityExpired capEvent.capability now then none
        else some capEvent.capability
      | none => none)

/-- `CapabilityStore.checkAuthorization`. -/
def CapStore.checkAuthorization (now : Nat) (S : CapStore)
    (pubkey action : String) (context : AuthContext) : AuthResult :=
  KG.checkAuthorization now (CapStore.getCapabilitiesForHolder now S pubkey)
    pubkey action context

/-- `CapabilityStore.isRevoked`. -/
def CapStore.isRevoked (S : CapStore) (eventId : String) : Bool :=
  S.revokedIds.contains eventId

-- ============================================================================
-- Event store (`EventStore` in relay.js)
-- ============================================================================

/-- A NIP-01 subscription filter; `none` models an absent field. -/
structure Filter where
  ids : Option (List String) := none
  authors : Option (List String) := none
  kinds : Option (List Nat) := none
  tagE : Option (List String) := none
  tagP : Option (List String) := none
  tagH : Option (List String) := none
  since : Option Nat := none
  until' : Option Nat := none
  limit : Option Nat := none
deriving DecidableEq

/-- The in-memory `EventStore` of the relay. -/
structure EventStore where
  events : List (String × Event) := []
  byGroup : List (String × List String) := []
  byAuthor : List (String × List String) := []
  byKind : List (Nat × List String) := []
  recentEventPrefixes : List String := []
deriving DecidableEq

/-- The empty event store. -/
def EventStore.empty : EventStore := {}

/-- `event.id.slice(0, 8)`. -/
def pfx8 (s : String) : String := ⟨s.toList.take 8⟩

/-- The recent-prefix window update inside `EventStore.add`: add the prefix,
then when more than 1,000 prefixes are held keep only the last 500. -/
def addPfx (w : List String) (p : String) : List String :=
  let s := setAdd w p
  if s.length > 1000 then s.drop (s.length - 500) else s

/-- `EventStore.add` from `relay.js`. -/
def EventStore.add (S : EventStore) (event : Event) : EventStore :=
  let byGroup :=
    match getGroupId event with
    | some groupId =>
      mapSet S.byGroup groupId (setAdd ((mapGet S.byGroup groupId).getD []) event.id)
    | none => S.byGroup
  { events := mapSet S.events event.id event,
    byGroup := byGroup,
    byAuthor := mapSet S.byAuthor event.pubkey
      (setAdd ((mapGet S.byAuthor event.pubkey).getD []) event.id),
    byKind := mapSet S.byKind event.kind
      (setAdd ((mapGet S.byKind event.kind).getD []) event.id),
    recentEventPrefixes := addPfx S.recentEventPrefixes (pfx8 event.id) }

/-- `EventStore.delete` from `relay.js` (the prefix window is not touched). -/
def EventStore.delete (S : EventStore) (eventId : String) : EventStore :=
  match mapGet S.events eventId with
  | none => S
  | some event =>
    let byGroup :=
      match getGroupId event with
      | some groupId =>
        match mapGet S.byGroup groupId with
        | some s => mapSet S.byGroup groupId (setDel s eventId)
        | none => S.byGroup
      | none => S.byGroup
    let byAuthor :=
      match mapGet S.byAuthor event.pubkey with
      | some s => mapSet S.byAuthor event.pubkey (setDel s eventId)
      | none => S.byAuthor
    let byKind :=
      match mapGet S.byKind event.kind with
      | some s => mapSet S.byKind event.kind (setDel s eventId)
      | none => S.byKind
    { events := mapDel S.events eventId,
      byGroup := byGroup, byAuthor := byAuthor, byKind := byKind,
      recentEventPrefixes := S.recentEventPrefixes }

/-- `matchesFilter` from `relay.js`: `since` / `until` bounds and the `#e` /
`#p` tag clauses (the other clauses are handled by the index pre-filtering in
`query`). -/
def matchesFilter (event : Event) (filter : Filter) : Bool :=
  (match filter.since with
   | some since => decide (event.created_at ≥ since)
   | none => true) &&
  (match filter.until' with
   | some u => decide (event.created_at ≤ u)
   | none => true) &&
  (match filter.tagE with
   | some es =>
     if es.isEmpty then true
     else
       let eTags := (event.tags.filter (fun t => t.head? == some "e")).filterMap
         (fun t => t[1]?)
       es.any (fun e => eTags.contains e)
   | none => true) &&
  (match filter.tagP with
   | some ps =>
     if ps.isEmpty then true
     else
       let pTags := (event.tags.filter (fun t => t.head? == some "p")).filterMap
         (fun t => t[1]?)
       ps.any (fun p => pTags.contains p)
   | none => true)

/-- The ids drawn from an event-id index for the listed keys (the JS loop
that unions `byGroup.get(g)` / `byAuthor.get(a)` / `byKind.get(k)` sets into
one `Set`). -/
def unionIndex [DecidableEq α] (index : List (α × List String)) (keys : List α) :
    List String :=
  keys.foldl (fun acc k => ((mapGet index k).getD []).foldl setAdd acc) []

/-- `candidateIds ? intersection(candidateIds, X) : X`: restrict the
candidate set by an index-derived id set (`intersection(a, b)` keeps the
elements of `a` contained in `b`). -/
def candRestrict (cand : Option (List String)) (x : List String) :
    Option (List String) :=
  match cand with
  | some c => some (c.filter (fun id => x.contains id))
  | none => some x

/-- The `filter.ids` narrowing stage of `EventStore.query`
(`new Set(filter.ids.filter(id => this.events.has(id)))`). -/
def candStage1 (S : EventStore) (filter : Filter) : Option (List String) :=
  match filter.ids with
  | some ids =>
    if ids.isEmpty then none
    else some (ids.filter (fun id => (mapGet S.events id).isSome))
  | none => none

/-- The `filter["#h"]` narrowing stage (union of `byGroup` sets). -/
def candStage2 (S : EventStore) (filter : Filter) : Option (List String) :=
  match filter.tagH with
  | some hs =>
    if hs.isEmpty then candStage1 S filter
    else candRestrict (candStage1 S filter) (unionIndex S.byGroup hs)
  | none => candStage1 S filter

/-- The `filter.authors` narrowing stage (union of `byAuthor` sets). -/
def candStage3 (S : EventStore) (filter : Filter) : Option (List String) :=
  match filter.authors with
  | some authors =>
    if authors.isEmpty then candStage2 S filter
    else candRestrict (candStage2 S filter) (unionIndex S.byAuthor authors)
  | none => candStage2 S filter

/-- The candidate-id narrowing phase of `EventStore.query` (`candidateIds`
after the four index stages); `none` means "no clause has constrained the
candidates". -/
def queryCandidates (S : EventStore) (filter : Filter) : Option (List String) :=
  match filter.kinds with
  | some kinds =>
    if kinds.isEmpty then candStage3 S filter
    else candRestrict (candStage3 S filter) (unionIndex S.byKind kinds)
  | none => candStage3 S filter

/-- `EventStore.query` from `relay.js`: candidate narrowing by the indexes,
`matchesFilter`, sort by `created_at` descending, then `limit`. -/
def EventStore.query (S : EventStore) (filter : Filter) : List Event :=
  let candidateIds := (queryCandidates S filter).getD (S.events.map (fun p => p.1))
  let results := candidateIds.filterMap (fun id =>
    match mapGet S.events id with
    | some event => if matchesFilter event filter then some event else none
    | none => none)
  -- `results.sort((a, b) => b.created_at - a.created_at)`: a comparison sort
  -- by descending `created_at` (no theorem below relies on the tie order).
  let sorted := results.insertionSort (fun a b => b.created_at ≤ a.created_at)
  match filter.limit with
  | some l => if l > 0 then sorted.take l else sorted
  | none => sorted

-- ============================================================================
-- NIP-29 event handling (`relay/dist/nip29.js`)
-- ============================================================================

/-- `isNip29Event` from `nip29.js`. -/
def isNip29Event (kind : Nat) : Bool :=
  kind == 9 || kind == 10 || kind == 11 || kind == 12 ||
  (9000 ≤ kind && kind ≤ 9022) || (39000 ≤ kind && kind ≤ 39003)

/-- `isModerationEvent` from `nip29.js`. -/
def isModerationEvent (kind : Nat) : Bool :=
  9000 ≤ kind && kind ≤ 9020

/-- `isRelayMetadataEvent` from `nip29.js`. -/
def isRelayMetadataEvent (kind : Nat) : Bool :=
  39000 ≤ kind && kind ≤ 39003

/-- `getPreviousRefs` from `nip29.js`: the values of every `previous` tag
that are exactly 8 characters long. -/
def getPreviousRefs (e : Event) : List String :=
  ((e.tags.filter (fun t => t.head? == some "previous")).flatMap
    (fun t => t.drop 1)).filter (fun ref => ref.length == 8)

/-- The options object of `validateNip29Event`. -/
structure ValidateOptions where
  requirePreviousRefs : Bool := false
  minPreviousRefs : Option Nat := none
  latePublicationWindow : Option Nat := none
  currentTime : Option Nat := none
deriving DecidableEq

/-- `validateNip29Event` from `nip29.js`; `sig` stands for the nostr-tools
`verifyEvent`, `now` for `Date.now`.  JS `currentTime - event.created_at >
maxAge` on numbers agrees with truncated `Nat` subtraction here because a
negative difference is never `> maxAge`. -/
def validateNip29Event (sig : SigFn) (now : Nat) (event : Event)
    (options : ValidateOptions) : Except String Unit :=
  if ¬ sig event then .error "Invalid signature"
  else
    match getGroupId event with
    | none => .error "Missing h tag (group ID)"
    | some _ =>
      let previousOk : Except String Unit :=
        if ¬ isRelayMetadataEvent event.kind ∧ options.requirePreviousRefs then
          let previousRefs := getPreviousRefs event
          let minRefs := options.minPreviousRefs.getD 3
          if previousRefs.length < minRefs then
            .error ("Insufficient previous references: need " ++ toString minRefs ++
              ", got " ++ toString previousRefs.length)
          else .ok ()
        else .ok ()
      match previousOk with
      | .error e => .error e
      | .ok _ =>
        match options.latePublicationWindow with
        | some maxAge =>
          let currentTime := options.currentTime.getD now
          if currentTime - event.created_at > maxAge then
            .error "Late publication rejected"
          else .ok ()
        | none => .ok ()

/-- A group admin (`{ pubkey, permissions }`). -/
structure GroupAdmin where
  pubkey : String
  permissions : List String
deriving DecidableEq

/-- `canPerformModerationAction` from `nip29.js`. -/
def canPerformModerationAction (admins : List GroupAdmin) (pubkey : String)
    (actionKind : Nat) : Bool :=
  match admins.find? (fun a => a.pubkey == pubkey) with
  | none => false
  | some admin =>
    let requiredPermission : Option String :=
      if actionKind = 9000 then some "add-user"
      else if actionKind = 9001 then some "remove-user"
      else if actionKind = 9002 then some "edit-metadata"
      else if actionKind = 9005 then some "delete-event"
      else if actionKind = 9008 then some "delete-group"
      else none
    match requiredPermission with
    | none => false
    | some p => admin.permissions.contains p

-- ============================================================================
-- Relay server state and NIP-29 event handling (`relay/dist/relay.js`)
-- ============================================================================

/-- Group metadata held by the relay (the fields `handleNip29Event` and
`handleCapabilityEvent` consult). -/
structure GroupMetadata where
  id : String
  pubkey : String
  visibility : String := "public"
  access : String := "open"
deriving DecidableEq

/-- A connected client: its subscriptions (`subId → filters`). -/
structure Client where
  subscriptions : List (String × List Filter) := []
deriving DecidableEq

/-- The relay configuration fields used by the embedded handlers. -/
structure RelayConfig where
  latePublicationWindow : Nat := 3600
deriving DecidableEq

/-- The relay's mutable state (the fields touched by `handleNip29Event`). -/
structure RelayState where
  config : RelayConfig := {}
  clients : List Client := []
  eventStore : EventStore := {}
  capabilityStore : CapStore := {}
  groups : List (String × GroupMetadata) := []
  admins : List (String × List GroupAdmin) := []
  members : List (String × List String) := []
deriving DecidableEq

/-- A frame sent to a client (`["OK", …]` / `["EVENT", subId, event]`). -/
inductive Frame where
  | ok (eventId : String) (accepted : Bool) (message : String)
  | event (subId : String) (e : Event)
deriving DecidableEq

/-- An output: the index of the receiving client paired with the frame. -/
def Output : Type := Nat × Frame

/-- `broadcastEvent` from `relay.js`: for every client and every
subscription, re-query the event store per filter and deliver the event once
per subscription whose first matching filter contains it (the `break`). -/
def broadcastEvent (R : RelayState) (event : Event) : List Output :=
  R.clients.enum.flatMap (fun ic =>
    ic.2.subscriptions.filterMap (fun sub =>
      if sub.2.any (fun f =>
          (EventStore.query R.eventStore f).any (fun e => e.id == event.id)) then
        some (ic.1, Frame.event sub.1 event)
      else none))

/-- `checkEventAuthorization` from `relay.js`: `true` when the event may
proceed; on failure the handler has already sent its own negative OK. -/
def checkEventAuthorization (now : Nat) (R : RelayState) (ci : Nat)
    (event : Event) (groupId : String) : Bool × List Output :=
  if event.kind == 9021 then (true, [])
  else
    let isMember := ((mapGet R.members groupId).getD []).contains event.pubkey
    let capabilities :=
      CapStore.getCapabilitiesForHolder now R.capabilityStore event.pubkey
    let requiredCapability : Option String :=
      if event.kind == 9 || event.kind == 10 || event.kind == 11 ||
          event.kind == 12 then some "write"
      else if isModerationEvent event.kind then some "delete"
      else none
    match requiredCapability with
    | none => (true, [])
    | some action =>
      let authResult := KG.checkAuthorization now capabilities event.pubkey action
        { eventKind := some event.kind, eventTags := some event.tags }
      match authResult with
      | .authorized _ => (true, [])
      | .denied _ =>
        if isMember then (true, [])
        else (false, [(ci, Frame.ok event.id false "restricted: not authorized")])

/-- `handleModerationEvent` from `relay.js`. -/
def handleModerationEvent (R : RelayState) (ci : Nat) (event : Event)
    (groupId : String) : RelayState × List Output :=
  let groupAdmins := (mapGet R.admins groupId).getD []
  if ¬ canPerformModerationAction groupAdmins event.pubkey event.kind then
    (R, [(ci, Frame.ok event.id false "restricted: not admin")])
  else
    let R1 :=
      if event.kind = 9000 then
        let targets := (event.tags.filter (fun t => t.head? == some "p")).filterMap
          (fun t => t[1]?)
        let memberSet := (mapGet R.members groupId).getD []
        { R with members := mapSet R.members groupId (targets.foldl setAdd memberSet) }
      else if event.kind = 9001 then
        let targets := (event.tags.filter (fun t => t.head? == some "p")).filterMap
          (fun t => t[1]?)
        match mapGet R.members groupId with
        | some memberSet =>
          { R with members := mapSet R.members groupId (targets.foldl setDel memberSet) }
        | none => R
      else if event.kind = 9005 then
        let eventIds := (event.tags.filter (fun t => t.head? == some "e")).filterMap
          (fun t => t[1]?)
        { R with eventStore := eventIds.foldl EventStore.delete R.eventStore }
      else R
    let R2 := { R1 with eventStore := EventStore.add R1.eventStore event }
    (R2, (ci, Frame.ok event.id true "") :: broadcastEvent R2 event)

/-- `handleJoinRequest` from `relay.js`. -/
def handleJoinRequest (R : RelayState) (ci : Nat) (event : Event)
    (groupId : String) : RelayState × List Output :=
  match mapGet R.groups groupId with
  | none => (R, [(ci, Frame.ok event.id false "invalid: group not found")])
  | some group =>
    let R1 :=
      if group.access == "open" then
        let memberSet := (mapGet R.members groupId).getD []
        { R with members := mapSet R.members groupId (setAdd memberSet event.pubkey) }
      else R
    let R2 := { R1 with eventStore := EventStore.add R1.eventStore event }
    (R2, [(ci, Frame.ok event.id true "")])

/-- `handleLeaveRequest` from `relay.js`. -/
def handleLeaveRequest (R : RelayState) (ci : Nat) (event : Event)
    (groupId : String) : RelayState × List Output :=
  let R1 :=
    match mapGet R.members groupId with
    | some memberSet =>
      { R with members := mapSet R.members groupId (setDel memberSet event.pubkey) }
    | none => R
  let R2 := { R1 with eventStore := EventStore.add R1.eventStore event }
  (R2, [(ci, Frame.ok event.id true "")])

/-- `handleNip29Event` from `relay.js`; `sig` stands for `verifyEvent`,
`now` for `Date.now`, `ci` is the index of the submitting client. -/
def handleNip29Event (sig : SigFn) (now : Nat) (R : RelayState) (ci : Nat)
    (event : Event) : RelayState × List Output :=
  match getGroupId event with
  | none => (R, [(ci, Frame.ok event.id false "invalid: missing h tag")])
  | some groupId =>
    let group := mapGet R.groups groupId
    if group.isNone ∧ event.kind ≠ 9007 then
      (R, [(ci, Frame.ok event.id false "invalid: group not found")])
    else
      let validationOptions : ValidateOptions :=
        { requirePreviousRefs :=
            !(isRelayMetadataEvent event.kind) && !(isModerationEvent event.kind),
          minPreviousRefs := some 0,
          latePublicationWindow := some R.config.latePublicationWindow,
          currentTime := none }
      match validateNip29Event sig now event validationOptions with
      | .error e => (R, [(ci, Frame.ok event.id false ("invalid: " ++ e))])
      | .ok _ =>
        match checkEventAuthorization now R ci event groupId with
        | (false, out) => (R, out)
        | (true, _) =>
          if isModerationEvent event.kind then
            handleModerationEvent R ci event groupId
          else if event.kind == 9021 then
            handleJoinRequest R ci event groupId
          else if event.kind == 9022 then
            handleLeaveRequest R ci event groupId
          else
            let R2 := { R with eventStore := EventStore.add R.eventStore event }
            (R2, (ci, Frame.ok event.id true "") :: broadcastEvent R2 event)

-- ============================================================================
-- Threshold signing (`signer/src/signing.ts`)
-- ============================================================================

/-- A secret share (`{ idx, seckey }`). -/
structure SecretShare where
  idx : Nat
  seckey : String
deriving DecidableEq

/-- A share together with its group public key, as consumed by
`signWithShares`. -/
structure ShareWithGroup where
  share : SecretShare
  groupPubkey : String
deriving DecidableEq

/-- The `@cmdcode/frost` operations used by `signWithShares`, abstracted:
the library is an external dependency, so the embedding holds for any
implementation of these operations. -/
structure FrostLib (Commit Ctx Psig KeyCtx : Type) where
  create_commit_pkg : SecretShare → Commit
  commit_idx : Commit → Nat
  commit_hidden : Commit → String
  commit_binder : Commit → String
  get_group_signing_ctx : String → List (Nat × String × String) → String → Ctx
  get_commit_pkg : List Commit → SecretShare → Commit
  sign_msg : Ctx → SecretShare → Commit → Psig
  combine_partial_sigs : Ctx → List Psig → String
  get_group_key_context : String → KeyCtx
  verify_final_sig : KeyCtx → String → String → Bool

/-- `signWithShares` from `signing.ts`; a thrown `Error` becomes
`Except.error` with the thrown message.  (With an empty share selection the
source dereferences `selectedShares[0]!`, a crash modelled as a distinct
error.) -/
def signWithShares {Commit Ctx Psig KeyCtx : Type}
    (lib : FrostLib Commit Ctx Psig KeyCtx) (shares : List ShareWithGroup)
    (message : String) (threshold : Nat) : Except String String :=
  if shares.length < threshold then
    .error ("Not enough shares: need " ++ toString threshold ++ ", got " ++
      toString shares.length)
  else
    let selectedShares := shares.take threshold
    match selectedShares.head? with
    | none => .error "TypeError: selectedShares[0] is undefined"
    | some s0 =>
      let groupPubkey := s0.groupPubkey
      let commits := selectedShares.map (fun s => lib.create_commit_pkg s.share)
      let pnonces := commits.map (fun c =>
        (lib.commit_idx c, lib.commit_hidden c, lib.commit_binder c))
      let ctx := lib.get_group_signing_ctx groupPubkey pnonces message
      let psigs := selectedShares.map (fun s =>
        lib.sign_msg ctx s.share (lib.get_commit_pkg commits s.share))
      let signature := lib.combine_partial_sigs ctx psigs
      if lib.verify_final_sig (lib.get_group_key_context groupPubkey)
          message signature then .ok signature
      else .error "Signature verification failed"

-- ============================================================================
-- Distributed key generation (`signer/src/dkg.ts`)
-- ============================================================================

/-- The DKG configuration. -/
structure DKGConfig where
  sessionId : String
  threshold : Nat
  maxSigners : Nat
  participants : List String
  myIndex : Nat
  mySecretKey : String
deriving DecidableEq

/-- The DKG state strings. -/
inductive DKGState where
  | initialized
  | round1_complete
  | round2_complete
  | finalized
  | failed
deriving DecidableEq

/-- A Round 1 package (`{ idx, vssCommitments }`); commitments are hex
points. -/
structure DKGRound1Package where
  idx : Nat
  vssCommitments : List String
deriving DecidableEq

/-- A Round 2 package (`{ fromIdx, toIdx, encryptedShare }`). -/
structure DKGRound2Package where
  fromIdx : Nat
  toIdx : Nat
  encryptedShare : String
deriving DecidableEq

/-- A per-participant DKG session.  `myRound1Secret` holds the polynomial
coefficients as the raw `BigInt("0x" + randomBytes.hex)` values. -/
structure DKGSession where
  config : DKGConfig
  state : DKGState
  round1Packages : List (Nat × DKGRound1Package) := []
  round2Packages : List (Nat × DKGRound2Package) := []
  myRound1Secret : Option (List Nat) := none
deriving DecidableEq

/-- `createDKGSession` from `dkg.ts`. -/
def createDKGSession (config : DKGConfig) : Except String DKGSession :=
  if config.threshold < 2 then .error "Threshold must be at least 2"
  else if config.threshold > config.maxSigners then
    .error "Threshold cannot exceed max signers"
  else if config.participants.length ≠ config.maxSigners then
    .error "Number of participants must equal max signers"
  else if config.myIndex < 1 ∨ config.myIndex > config.maxSigners then
    .error "My index must be between 1 and max signers"
  else .ok { config := config, state := .initialized }

/-- `generateRound1Package` from `dkg.ts`.  `rand i` is the value of the
`i`-th sampled 32-byte string read as a hex number, and `getShareCommits`
stands for `Lib.get_share_commits` of the external frost library. -/
def generateRound1Package (rand : Nat → Nat)
    (getShareCommits : List Nat → List String) (session : DKGSession) :
    Except String (DKGRound1Package × DKGSession) :=
  if session.state ≠ .initialized then
    .error "Invalid state for Round 1"
  else
    let threshold := session.config.threshold
    let myIndex := session.config.myIndex
    let coefficients := (List.range threshold).map rand
    let vssCommitments := getShareCommits coefficients
    let round1Package : DKGRound1Package := ⟨myIndex, vssCommitments⟩
    let updatedSession : DKGSession :=
      { session with
        myRound1Secret := some coefficients,
        round1Packages := mapSet session.round1Packages myIndex round1Package }
    .ok (round1Package, updatedSession)

/-- `processRound1Package` from `dkg.ts`. -/
def processRound1Package (session : DKGSession) (pkg : DKGRound1Package) :
    Except String DKGSession :=
  if session.state ≠ .initialized ∧ session.state ≠ .round1_complete then
    .error "Invalid state for processing Round 1"
  else if pkg.idx = session.config.myIndex then
    .error "Cannot process own Round 1 package"
  else if pkg.idx < 1 ∨ pkg.idx > session.config.maxSigners then
    .error ("Invalid participant index: " ++ toString pkg.idx)
  else if pkg.vssCommitments.length ≠ session.config.threshold then
    .error ("Invalid VSS commitments length: expected " ++
      toString session.config.threshold ++ ", got " ++
      toString pkg.vssCommitments.length)
  else
    let updatedPackages := mapSet session.round1Packages pkg.idx pkg
    let allReceived := updatedPackages.length = session.config.maxSigners
    .ok { session with
          round1Packages := updatedPackages,
          state := if allReceived then .round1_complete else session.state }

/-- The secp256k1 group order `n`. -/
def secpOrder : Nat :=
  115792089237316195423570985008687907852837564279074904382605163141518161494337

-- ============================================================================
-- Specification-side definitions (used only to compare against the code)
-- ============================================================================

/-- Spec-side matching predicate for the authorization decision, following
the six-step procedure literally: a capability matches when the holder and
action agree, `now < expiresAt` whenever `expiresAt` is set, the event kind
is in `kinds` when both are given, and the tag qualifiers hold when both the
qualifier and the event tags are given. -/
def specCapMatches (c : Capability) (holder action : String) (t : Nat)
    (eventKind : Option Nat) (eventTags : Option (List (List String))) : Bool :=
  c.holder == holder && c.type == action &&
  (match c.expiresAt with
   | none => true
   | some x => decide ((t : Int) < x)) &&
  (match eventKind, c.qualifiers.bind (fun q => q.kinds) with
   | some k, some ks => ks.contains (k : Int)
   | _, _ => true) &&
  (match c.qualifiers.bind (fun q => q.requiredTags), eventTags with
   | some rts, some tags => eventMatchesRequiredTags tags rts
   | _, _ => true) &&
  (match c.qualifiers.bind (fun q => q.excludedTags), eventTags with
   | some ets, some tags => !(eventHasExcludedTags tags ets)
   | _, _ => true)

/-- Spec-side authorization decision: the first capability in list order
matching `specCapMatches`, otherwise a denial with no witness capability. -/
def specAuthorize (now : Nat) (capabilities : List Capability)
    (pubkey action : String) (context : AuthContext) : AuthResult :=
  let t := context.currentTime.getD now
  match capabilities.find? (fun c =>
      specCapMatches c pubkey action t context.eventKind context.eventTags) with
  | some cap => .authorized cap
  | none => .denied "No valid capability found"

/-- The amended matching predicate: as `specCapMatches`, except that an
`expiresAt` of `0` is treated as no expiry (the JS falsy-zero behaviour of
`isCapabilityExpired`). -/
def amendedCapMatches (c : Capability) (holder action : String) (t : Nat)
    (eventKind : Option Nat) (eventTags : Option (List (List String))) : Bool :=
  c.holder == holder && c.type == action &&
  (match c.expiresAt with
   | none => true
   | some x => if x = 0 then true else decide ((t : Int) < x)) &&
  (match eventKind, c.qualifiers.bind (fun q => q.kinds) with
   | some k, some ks => ks.contains (k : Int)
   | _, _ => true) &&
  (match c.qualifiers.bind (fun q => q.requiredTags), eventTags with
   | some rts, some tags => eventMatchesRequiredTags tags rts
   | _, _ => true) &&
  (match c.qualifiers.bind (fun q => q.excludedTags), eventTags with
   | some ets, some tags => !(eventHasExcludedTags tags ets)
   | _, _ => true)

/-- The values of the `e` tags of an event (as used by the `#e` clause). -/
def eTagVals (e : Event) : List String :=
  (e.tags.filter (fun t => t.head? == some "e")).filterMap (fun t => t[1]?)

/-- The values of the `p` tags of an event (as used by the `#p` clause). -/
def pTagVals (e : Event) : List String :=
  (e.tags.filter (fun t => t.head? == some "p")).filterMap (fun t => t[1]?)

/-- Spec-side filter semantics: an event satisfies every non-empty clause,
conjunctively; an absent or empty clause imposes no constraint.  (The
individual clause meanings are those of the relay: `ids`/`authors`/`kinds`
by field membership, `#h` by the first `h` tag, `#e`/`#p` by intersection
with the tag values, `since`/`until` as bounds on `created_at`.) -/
def filterClausesHold (f : Filter) (e : Event) : Bool :=
  (match f.ids with
   | some ids => ids.isEmpty || ids.contains e.id
   | none => true) &&
  (match f.tagH with
   | some hs => hs.isEmpty ||
      (match getGroupId e with
       | some g => hs.contains g
       | none => false)
   | none => true) &&
  (match f.authors with
   | some as => as.isEmpty || as.contains e.pubkey
   | none => true) &&
  (match f.kinds with
   | some ks => ks.isEmpty || ks.contains e.kind
   | none => true) &&
  (match f.since with
   | some s => decide (e.created_at ≥ s)
   | none => true) &&
  (match f.until' with
   | some u => decide (e.created_at ≤ u)
   | none => true) &&
  (match f.tagE with
   | some es => es.isEmpty || es.any (fun v => (eTagVals e).contains v)
   | none => true) &&
  (match f.tagP with
   | some ps => ps.isEmpty || ps.any (fun v => (pTagVals e).contains v)
   | none => true)

-- ============================================================================
-- Event-store well-formedness and reachability
-- ============================================================================

/-- The keys of an association list. -/
def keysOf (m : List (α × β)) : List α := m.map (fun p => p.1)

/-- An event-id index is consistent with the events map: it holds exactly
the ids of stored events whose key (group / author / kind) matches. -/
def IdxOK (keyOf : Event → Option κ) [DecidableEq κ]
    (events : List (String × Event)) (idx : List (κ × List String)) : Prop :=
  ∀ k id, id ∈ (mapGet idx k).getD [] ↔
    ∃ e, mapGet events id = some e ∧ keyOf e = some k

/-- Well-formedness of an `EventStore`: duplicate-free keys, keys equal to
the stored event's id, and all three indexes consistent. -/
structure EventStoreWF (S : EventStore) : Prop where
  nodupKeys : (keysOf S.events).Nodup
  keyIsId : ∀ id e, mapGet S.events id = some e → e.id = id
  groupIdx : IdxOK getGroupId S.events S.byGroup
  authorIdx : IdxOK (fun e => some e.pubkey) S.events S.byAuthor
  kindIdx : IdxOK (fun e => some e.kind) S.events S.byKind

/-- The event-store states reachable through the relay: starting empty,
adding events (an id is re-added only with the very same event, since nostr
ids are content hashes), and deleting ids. -/
inductive StoreReach : EventStore → Prop
  | empty : StoreReach EventStore.empty
  | add (S : EventStore) (e : Event) : StoreReach S →
      (mapGet S.events e.id = none ∨ mapGet S.events e.id = some e) →
      StoreReach (EventStore.add S e)
  | del (S : EventStore) (id : String) : StoreReach S →
      StoreReach (EventStore.delete S id)

/-- Capability-store states reachable from a given state by further
`addCapability` / `addRevocation` calls (queries do not mutate). -/
inductive CapReach : CapStore → CapStore → Prop
  | refl (S : CapStore) : CapReach S S
  | addCap (S₀ S : CapStore) (sig : SigFn) (jsonPairs : JsonPairsFn) (now : Nat)
      (ev : Event) (gp : String) : CapReach S₀ S →
      CapReach S₀ (CapStore.addCapability sig jsonPairs now S ev gp).1
  | addRev (S₀ S : CapStore) (sig : SigFn) (ev : Event) (gp : String) :
      CapReach S₀ S → CapReach S₀ (CapStore.addRevocation sig S ev gp).1

-- ============================================================================
-- Concrete instances used in counterexamples and witnesses
-- ============================================================================

/-- A signature verifier that accepts everything (witness instantiation of
the external crypto). -/
def sigTrue : SigFn := fun _ => true

/-- A JSON oracle that always fails to parse (witness instantiation). -/
def jsonNone : JsonPairsFn := fun _ => none

/-- A trivial frost library (witness instantiation; `signWithShares` fails
before touching it). -/
def trivLib : FrostLib Unit Unit Unit Unit :=
  { create_commit_pkg := fun _ => (), commit_idx := fun _ => 0,
    commit_hidden := fun _ => "", commit_binder := fun _ => "",
    get_group_signing_ctx := fun _ _ _ => (), get_commit_pkg := fun _ _ => (),
    sign_msg := fun _ _ _ => (), combine_partial_sigs := fun _ _ => "",
    get_group_key_context := fun _ => (), verify_final_sig := fun _ _ _ => true }

/-- Two shares of a 3-of-5 group (scenario ``Insufficient shares``). -/
def twoShares : List ShareWithGroup :=
  [⟨⟨1, "s1"⟩, "gp"⟩, ⟨⟨2, "s2"⟩, "gp"⟩]

/-- A DKG session of a 3-participant group that has already recorded a
Round 1 package for index 2. -/
def dupSession : DKGSession :=
  { config := { sessionId := "sess", threshold := 2, maxSigners := 3,
                participants := ["a", "b", "c"], myIndex := 1,
                mySecretKey := "sk" },
    state := .initialized,
    round1Packages := [(2, ⟨2, ["P1", "P2"]⟩)] }

/-- A conflicting Round 1 package for the already-recorded index 2. -/
def dupPkg : DKGRound1Package := ⟨2, ["Q1", "Q2"]⟩

/-- A fresh DKG session of a 2-of-2 group. -/
def freshSession : DKGSession :=
  { config := { sessionId := "sess", threshold := 2, maxSigners := 2,
                participants := ["a", "b"], myIndex := 1, mySecretKey := "sk" },
    state := .initialized }

/-- The largest 32-byte value, `ff…ff` (= 2^256 − 1): a possible outcome of
`Util.random_bytes(32)` that is ≥ the secp256k1 order. -/
def maxBytes32 : Nat := 2 ^ 256 - 1

/-- A capability whose `expiresAt` is the JS-falsy value `0`. -/
def zeroExpiryCap : Capability :=
  { type := "read", holder := "hldr", issuer := "grp", issuedAt := 0,
    expiresAt := some 0 }

/-- A `delegate` grant event with expiration tag `0`. -/
def origGrantZeroExp : Event :=
  { id := "o1", pubkey := "G", created_at := 10, kind := 29000,
    tags := [["p", "H"], ["capability", "delegate"], ["expiration", "0"]] }

/-- A delegation of `origGrantZeroExp` with expiration `5`. -/
def delegEventExp5 : Event :=
  { id := "d1", pubkey := "H", created_at := 11, kind := 29002,
    tags := [["e", "o1"], ["p", "K"], ["capability", "read"],
             ["expiration", "5"]] }

/-- The capability `validateDelegatedCapability` produces for
`delegEventExp5`. -/
def delegCapExp5 : Capability :=
  { type := "read", holder := "K", issuer := "G", issuedAt := 11,
    expiresAt := some 5, delegationChain := some [⟨"H", "K", "d1"⟩] }

/-- A `delegate` grant with kinds `[9, 10]` and expiration `100`. -/
def origGrant100 : Event :=
  { id := "o2", pubkey := "G", created_at := 10, kind := 29000,
    tags := [["p", "H"], ["capability", "delegate"], ["kinds", "9", "10"],
             ["expiration", "100"]] }

/-- A delegation of `origGrant100` with kinds `[9]` and expiration `50`. -/
def delegEvent50 : Event :=
  { id := "d2", pubkey := "H", created_at := 11, kind := 29002,
    tags := [["e", "o2"], ["p", "K"], ["capability", "write"],
             ["kinds", "9"], ["expiration", "50"]] }

/-- The capability `validateDelegatedCapability` produces for
`delegEvent50`. -/
def delegCap50 : Capability :=
  { type := "write", holder := "K", issuer := "G", issuedAt := 11,
    expiresAt := some 50,
    qualifiers := some { kinds := some [9] },
    delegationChain := some [⟨"H", "K", "d2"⟩] }

/-- A revocation event for grant id `x1`, issued by group key `G`. -/
def revEventX1 : Event :=
  { id := "r1", pubkey := "G", created_at := 5, kind := 29001,
    tags := [["e", "x1"]] }

/-- The capability store after `revEventX1` is accepted on the empty
store. -/
def storeAfterRev : CapStore := { revokedIds := ["x1"] }

/-- A grant event re-using the revoked id `x1`. -/
def grantEventX1 : Event :=
  { id := "x1", pubkey := "G", created_at := 6, kind := 29000,
    tags := [["p", "H"], ["capability", "write"]] }

/-- The decimal-digit characters, as a function (used to build injective
event ids for the prefix-window counterexample). -/
def digitChar (d : Nat) : Char :=
  match d with
  | 0 => '0' | 1 => '1' | 2 => '2' | 3 => '3' | 4 => '4'
  | 5 => '5' | 6 => '6' | 7 => '7' | 8 => '8' | _ => '9'

/-- A 4-character event id encoding `n < 10000` (its own 8-char prefix). -/
def mkId (n : Nat) : String :=
  ⟨[digitChar (n / 1000), digitChar (n / 100 % 10),
    digitChar (n / 10 % 10), digitChar (n % 10)]⟩

/-- A minimal event with id `mkId n`. -/
def mkEv (n : Nat) : Event :=
  { id := mkId n, pubkey := "a", created_at := 0, kind := 1, tags := [] }

/-- The event store after adding a list of events to the empty store. -/
def storeAfter (es : List Event) : EventStore :=
  es.foldl EventStore.add EventStore.empty

/-- A kind-9 chat event in group `g` by member `alice`. -/
def chatEvent : Event :=
  { id := "e1", pubkey := "alice", created_at := 50, kind := 9,
    tags := [["h", "g"]] }

/-- A relay whose store already contains `chatEvent`, with one subscriber
whose subscription `s1` carries the empty (match-all) filter. -/
def dupRelay : RelayState :=
  { config := {},
    clients := [⟨[("s1", [{}])]⟩],
    eventStore := EventStore.add EventStore.empty chatEvent,
    capabilityStore := {},
    groups := [("g", ⟨"g", "G", "public", "open"⟩)],
    admins := [("g", [])],
    members := [("g", ["alice"])] }

/-- Two chat events with distinct ids and timestamps (used to instantiate
the query theorems on a concrete store). -/
def evA : Event :=
  { id := "a1", pubkey := "alice", created_at := 5, kind := 9,
    tags := [["h", "g"]] }

/-- The newer of the two concrete chat events. -/
def evB : Event :=
  { id := "b1", pubkey := "bob", created_at := 7, kind := 9,
    tags := [["h", "g"]] }

/-- A store holding `evA` then `evB`. -/
def store2 : EventStore :=
  EventStore.add (EventStore.add EventStore.empty evA) evB

/-- The limit-independent part of `EventStore.query`: candidate narrowing,
`matchesFilter`, and the descending `created_at` sort (everything before
the `limit` truncation). -/
def queryBase (S : EventStore) (f : Filter) : List Event :=
  (((queryCandidates S f).getD (keysOf S.events)).filterMap (fun id =>
    match mapGet S.events id with
    | some event => if matchesFilter event f then some event else none
    | none => none)).insertionSort (fun a b => b.created_at ≤ a.created_at)

/-- A match-all filter with `limit: 1` (instantiates the limit theorem). -/
def fLim1 : Filter := { limit := some 1 }

-- ============================================================================
-- Helper lemmas for the JS collection embeddings
-- ============================================================================

theorem mapGet_mapSet_self [DecidableEq α] (m : List (α × β)) (k : α) (v : β) :
    mapGet (mapSet m k v) k = some v := by
  induction m with
  | nil => simp [mapSet, mapGet]
  | cons p rest ih =>
    obtain ⟨k', v'⟩ := p
    by_cases h : k' = k
    · simp [mapSet, mapGet, h]
    · simp [mapSet, mapGet, h, ih]

theorem mapGet_mapSet_ne [DecidableEq α] (m : List (α × β)) (k k' : α) (v : β)
    (h : k' ≠ k) : mapGet (mapSet m k v) k' = mapGet m k' := by
  induction m with
  | nil => simp [mapSet, mapGet, Ne.symm h]
  | cons p rest ih =>
    obtain ⟨k₀, v₀⟩ := p
    by_cases hk : k₀ = k
    · subst hk
      simp [mapSet, mapGet, Ne.symm h]
    · simp [mapSet, mapGet, hk, ih]

theorem mapGet_eq_none_iff [DecidableEq α] (m : List (α × β)) (k : α) :
    mapGet m k = none ↔ k ∉ keysOf m := by
  induction m with
  | nil => simp [mapGet, keysOf]
  | cons p rest ih =>
    obtain ⟨k', v'⟩ := p
    by_cases h : k' = k
    · simp [mapGet, keysOf, h]
    · simp [mapGet, keysOf, h, ih, Ne.symm h]

theorem mapGet_mapDel_none [DecidableEq α] (m : List (α × β)) (k k' : α)
    (h : mapGet m k' = none) : mapGet (mapDel m k) k' = none := by
  induction m with
  | nil => simpa [mapDel] using h
  | cons p rest ih =>
    obtain ⟨k₀, v₀⟩ := p
    simp only [mapGet] at h
    by_cases hk' : k₀ = k'
    · rw [if_pos hk'] at h
      exact absurd h (by simp)
    · rw [if_neg hk'] at h
      by_cases hk : k₀ = k
      · simpa [mapDel, hk] using h
      · simp [mapDel, hk, mapGet, hk', ih h]

theorem mapGet_mapDel_self [DecidableEq α] (m : List (α × β)) (k : α)
    (h : (keysOf m).Nodup) : mapGet (mapDel m k) k = none := by
  induction m with
  | nil => simp [mapDel, mapGet]
  | cons p rest ih =>
    obtain ⟨k₀, v₀⟩ := p
    simp only [keysOf, List.map_cons, List.nodup_cons] at h
    by_cases hk : k₀ = k
    · subst hk
      rw [show mapDel ((k₀, v₀) :: rest) k₀ = rest from by simp [mapDel]]
      exact (mapGet_eq_none_iff rest k₀).mpr (by simpa [keysOf] using h.1)
    · simp [mapDel, hk, mapGet, ih h.2]

theorem mem_setAdd [DecidableEq α] (s : List α) (a b : α) :
    b ∈ setAdd s a ↔ b ∈ s ∨ b = a := by
  by_cases h : a ∈ s
  · simp only [setAdd, if_pos h]
    constructor
    · exact Or.inl
    · rintro (hb | rfl) <;> [exact hb; exact h]
  · simp [setAdd, if_neg h]

theorem setAdd_of_mem [DecidableEq α] {s : List α} {a : α} (h : a ∈ s) :
    setAdd s a = s := by
  simp [setAdd, if_pos h]

theorem self_mem_setAdd [DecidableEq α] (s : List α) (a : α) :
    a ∈ setAdd s a := by
  simp [mem_setAdd]

theorem mapSet_eq_self [DecidableEq α] (m : List (α × β)) (k : α) (v : β)
    (h : mapGet m k = some v) : mapSet m k v = m := by
  induction m with
  | nil => simp [mapGet] at h
  | cons p rest ih =>
    obtain ⟨k₀, v₀⟩ := p
    by_cases hk : k₀ = k
    · subst hk
      obtain rfl : v₀ = v := by simpa [mapGet] using h
      simp [mapSet]
    · simp only [mapGet, if_neg hk] at h
      simp [mapSet, hk, ih h]

-- ============================================================================
-- C4 — threshold strictness of signWithShares
-- ============================================================================

/-- C4: for every share list shorter than the threshold, `signWithShares`
fails with the message `Not enough shares: need <threshold>, got <length>`
and never returns a signature. -/
theorem signWithShares_not_enough_shares {Commit Ctx Psig KeyCtx : Type}
    (lib : FrostLib Commit Ctx Psig KeyCtx) (shares : List ShareWithGroup)
    (message : String) (threshold : Nat) (h : shares.length < threshold) :
    signWithShares lib shares message threshold =
      .error ("Not enough shares: need " ++ toString threshold ++ ", got " ++
        toString shares.length) ∧
    ∀ signature, signWithShares lib shares message threshold ≠ .ok signature := by
  have h1 : signWithShares lib shares message threshold =
      .error ("Not enough shares: need " ++ toString threshold ++ ", got " ++
        toString shares.length) := by
    unfold signWithShares
    rw [if_pos h]
  refine ⟨h1, fun signature hcontra => ?_⟩
  rw [h1] at hcontra
  exact Except.noConfusion hcontra

/-- C4 witness: with threshold 3 and only 2 shares the call fails with
`Not enough shares: need 3, got 2`. -/
theorem signWithShares_not_enough_shares_witness :
    twoShares.length < 3 ∧
    signWithShares trivLib twoShares "deadbeef" 3 =
      .error "Not enough shares: need 3, got 2" :=
  ⟨by decide,
    ((signWithShares_not_enough_shares trivLib twoShares "deadbeef" 3
      (by decide)).1).trans (by decide)⟩

-- ============================================================================
-- C5 — the ingest_round1 contract
-- ============================================================================

/-- C5 counterexample: the claim says a package for an index that already
has a recorded package with non-equal commitments is rejected; the code
accepts it and silently replaces the stored package. -/
theorem processRound1Package_accepts_conflicting_duplicate :
    mapGet dupSession.round1Packages dupPkg.idx = some ⟨2, ["P1", "P2"]⟩ ∧
    (⟨2, ["P1", "P2"]⟩ : DKGRound1Package).vssCommitments ≠ dupPkg.vssCommitments ∧
    processRound1Package dupSession dupPkg =
      .ok { dupSession with round1Packages := [(2, dupPkg)] } :=
  ⟨by decide, by decide, by decide⟩

/-- C5 (amended): `processRound1Package` rejects the session's own index,
an out-of-range index, and a commitment list whose length differs from the
threshold; any other package is accepted — a duplicate index silently
replaces the recorded package — and the state becomes `round1_complete`
exactly when `maxSigners` distinct packages are present (or it already
was). -/
theorem processRound1Package_contract (session : DKGSession)
    (pkg : DKGRound1Package)
    (hstate : session.state = .initialized ∨ session.state = .round1_complete) :
    (pkg.idx = session.config.myIndex →
      processRound1Package session pkg =
        .error "Cannot process own Round 1 package") ∧
    (pkg.idx ≠ session.config.myIndex →
      (pkg.idx < 1 ∨ pkg.idx > session.config.maxSigners) →
      processRound1Package session pkg =
        .error ("Invalid participant index: " ++ toString pkg.idx)) ∧
    (pkg.idx ≠ session.config.myIndex →
      ¬ (pkg.idx < 1 ∨ pkg.idx > session.config.maxSigners) →
      pkg.vssCommitments.length ≠ session.config.threshold →
      processRound1Package session pkg =
        .error ("Invalid VSS commitments length: expected " ++
          toString session.config.threshold ++ ", got " ++
          toString pkg.vssCommitments.length)) ∧
    (pkg.idx ≠ session.config.myIndex →
      ¬ (pkg.idx < 1 ∨ pkg.idx > session.config.maxSigners) →
      pkg.vssCommitments.length = session.config.threshold →
      ∃ s', processRound1Package session pkg = .ok s' ∧
        mapGet s'.round1Packages pkg.idx = some pkg ∧
        s'.round1Packages = mapSet session.round1Packages pkg.idx pkg ∧
        (s'.state = .round1_complete ↔
          s'.round1Packages.length = session.config.maxSigners ∨
          session.state = .round1_complete)) := by
  have hnot : ¬ (session.state ≠ .initialized ∧ session.state ≠ .round1_complete) := by
    rcases hstate with h | h <;> simp [h]
  refine ⟨?_, ?_, ?_, ?_⟩
  · intro hown
    unfold processRound1Package
    rw [if_neg hnot, if_pos hown]
  · intro hown hrange
    unfold processRound1Package
    rw [if_neg hnot, if_neg hown, if_pos hrange]
  · intro hown hrange hlen
    unfold processRound1Package
    rw [if_neg hnot, if_neg hown, if_neg hrange, if_pos hlen]
  · intro hown hrange hlen
    refine ⟨{ session with
        round1Packages := mapSet session.round1Packages pkg.idx pkg,
        state := if (mapSet session.round1Packages pkg.idx pkg).length =
            session.config.maxSigners then .round1_complete else session.state },
      ?_, mapGet_mapSet_self _ _ _, rfl, ?_⟩
    · unfold processRound1Package
      rw [if_neg hnot, if_neg hown, if_neg hrange, if_neg (by simpa using hlen)]
    · by_cases hall : (mapSet session.round1Packages pkg.idx pkg).length =
          session.config.maxSigners
      · simp [hall]
      · simp only [if_neg hall]
        constructor
        · intro h
          exact Or.inr h
        · rintro (h | h)
          · exact absurd h hall
          · exact h

/-- C5 witness: a fresh, in-range package with the right commitment length
is accepted and recorded. -/
theorem processRound1Package_contract_witness :
    ∃ s', processRound1Package dupSession ⟨3, ["R1", "R2"]⟩ = .ok s' ∧
      mapGet s'.round1Packages 3 = some ⟨3, ["R1", "R2"]⟩ ∧
      s'.round1Packages = mapSet dupSession.round1Packages 3 ⟨3, ["R1", "R2"]⟩ ∧
      (s'.state = .round1_complete ↔
        s'.round1Packages.length = dupSession.config.maxSigners ∨
        dupSession.state = .round1_complete) :=
  (processRound1Package_contract dupSession ⟨3, ["R1", "R2"]⟩
    (Or.inl rfl)).2.2.2 (by decide) (by decide) (by decide)

-- ============================================================================
-- C6 — DKG Round 1 coefficient sampling
-- ============================================================================

/-- C6 (code bug): the claim says every stored polynomial coefficient is a
nonzero scalar strictly below the secp256k1 order; the code stores the raw
32-byte values without any range or nonzero check, so the all-`ff` outcome
stores `2^256 − 1 ≥ n` and the all-zero outcome stores `0`. -/
theorem generateRound1Package_stores_raw_values :
    (generateRound1Package (fun _ => maxBytes32) (fun _ => []) freshSession =
      .ok (⟨1, []⟩,
        { freshSession with
          myRound1Secret := some [maxBytes32, maxBytes32],
          round1Packages := [(1, ⟨1, []⟩)] }) ∧
      maxBytes32 ≥ secpOrder) ∧
    (generateRound1Package (fun _ => 0) (fun _ => []) freshSession =
      .ok (⟨1, []⟩,
        { freshSession with
          myRound1Secret := some [0, 0],
          round1Packages := [(1, ⟨1, []⟩)] })) :=
  ⟨⟨by decide, by decide⟩, by decide⟩

-- ============================================================================
-- C2 — the authorization decision procedure
-- ============================================================================

/-- C2 counterexample: a capability with the JS-falsy expiry `0` is "set"
but never expires in the code, while the claim's procedure (`now <
expiresAt` whenever `expiresAt` is set) rejects it; the code authorizes
where the claimed procedure denies. -/
theorem checkAuthorization_zero_expiry_mismatch :
    checkAuthorization 100 [zeroExpiryCap] "hldr" "read" {} =
      .authorized zeroExpiryCap ∧
    specAuthorize 100 [zeroExpiryCap] "hldr" "read" {} =
      .denied "No valid capability found" :=
  ⟨by decide, by decide⟩

/-- The single-capability test of the `checkAuthorization` loop coincides
with the amended six-step matching predicate. -/
theorem capPasses_eq_amended (c : Capability) (pubkey action : String)
    (t : Nat) (eventKind : Option Nat)
    (eventTags : Option (List (List String))) :
    capPasses c pubkey action t eventKind eventTags =
    amendedCapMatches c pubkey action t eventKind eventTags := by
  unfold capPasses amendedCapMatches isCapabilityExpired capabilityAllowsAction
  by_cases hty : c.type = action
  · simp only [hty, ne_eq, not_true_eq_false, if_false, beq_self_eq_true]
    cases hexp : c.expiresAt with
    | none =>
      simp [Bool.and_comm, Bool.and_left_comm, Bool.and_assoc]
    | some x =>
      by_cases hx : x = 0
      · simp [hx, Bool.and_comm, Bool.and_left_comm, Bool.and_assoc]
      · simp only [if_neg hx, ← decide_not, not_le]
        simp [Bool.and_comm, Bool.and_left_comm, Bool.and_assoc]
  · have hbeq : (c.type == action) = false := by simpa using hty
    simp [hty, hbeq]

/-- C2 (amended): `checkAuthorization` returns the first capability in list
order matching the six-step procedure, with two JS artifacts made explicit:
`expiresAt = 0` never expires, and the tag-qualifier checks apply only when
event tags are supplied; with no match it returns the denial with no witness
capability. -/
theorem checkAuthorization_first_amended_match (now : Nat)
    (caps : List Capability) (pubkey action : String) (context : AuthContext) :
    checkAuthorization now caps pubkey action context =
      (match caps.find? (fun c => amendedCapMatches c pubkey action
          (context.currentTime.getD now) context.eventKind context.eventTags) with
       | some cap => .authorized cap
       | none => .denied "No valid capability found") := by
  unfold checkAuthorization
  show (match caps.find? (fun c => capPasses c pubkey action
      (context.currentTime.getD now) context.eventKind context.eventTags) with
    | some cap => AuthResult.authorized cap
    | none => AuthResult.denied "No valid capability found") = _
  rw [show (fun c => capPasses c pubkey action (context.currentTime.getD now)
      context.eventKind context.eventTags) =
      (fun c => amendedCapMatches c pubkey action (context.currentTime.getD now)
      context.eventKind context.eventTags) from
    funext (fun c => capPasses_eq_amended c pubkey action
      (context.currentTime.getD now) context.eventKind context.eventTags)]

-- ============================================================================
-- C3 — delegation subset soundness
-- ============================================================================

/-- C3 counterexample: the original grant's expiry is the JS-falsy value
`0`, so the subset checks are skipped and a delegation expiring at `5 > 0`
validates, although the claim requires `d.expiresAt ≤ o.expiresAt` whenever
`o.expiresAt` is set. -/
theorem validateDelegated_zero_expiry_escape :
    validateDelegatedCapability sigTrue jsonNone [] 3 delegEventExp5
      origGrantZeroExp "G" = .ok delegCapExp5 ∧
    validateCapabilityEvent sigTrue jsonNone [] 3 origGrantZeroExp "G" =
      .ok { type := "delegate", holder := "H", issuer := "G", issuedAt := 10,
            expiresAt := some 0 } ∧
    delegCapExp5.expiresAt = some 5 ∧ ¬ ((5 : Int) ≤ 0) :=
  ⟨by decide, by decide, by decide, by decide⟩

/-- The delegation parser copies the issuer from the original capability. -/
theorem parseDelegationEvent_issuer (jsonPairs : JsonPairsFn) (d : Event)
    (oCap : Capability) (dc : CapabilityEvent)
    (h : parseDelegationEvent jsonPairs d oCap = some dc) :
    dc.capability.issuer = oCap.issuer := by
  unfold parseDelegationEvent at h
  split at h
  · exact absurd h (by simp)
  · split at h
    · split at h
      · exact absurd h (by simp)
      · obtain rfl := Option.some_injective _ h
        rfl
    · exact absurd h (by simp)

/-- A successful subset validation forces the delegated kinds to be a subset
of the original's whenever the original restricts kinds. -/
theorem validateQualifiersSubset_kinds (o d : Capability)
    (h : validateQualifiersSubset o d = .ok ()) :
    ∀ oks, o.qualifiers.bind (fun q => q.kinds) = some oks →
      ∃ dks, d.qualifiers.bind (fun q => q.kinds) = some dks ∧
        ∀ k ∈ dks, k ∈ oks := by
  intro oks hoks
  unfold validateQualifiersSubset at h
  split at h
  next oks' dks hoks' hdks =>
    obtain rfl : oks' = oks := by rw [hoks] at hoks'; exact (Option.some_injective _ hoks').symm
    refine ⟨dks, hdks, fun k hk => ?_⟩
    split at h
    · exact absurd h (by simp)
    next hfind =>
      have hnot := List.find?_eq_none.mp hfind k hk
      simpa [List.elem_iff] using hnot
  next hoks' hdks =>
    rw [hoks] at hoks'
    exact absurd h (by simp)
  next hnone =>
    rw [hoks] at hnone
    exact absurd hnone (by simp)

/-- A successful subset validation forces a nonzero delegated expiry not
exceeding the original's whenever the original has a nonzero expiry. -/
theorem validateQualifiersSubset_expiry (o d : Capability)
    (h : validateQualifiersSubset o d = .ok ()) :
    ∀ oe, o.expiresAt = some oe → oe ≠ 0 →
      ∃ de, d.expiresAt = some de ∧ de ≠ 0 ∧ de ≤ oe := by
  intro oe hoe hne
  have hexp : subsetExpiryCheck o d = .ok () := by
    unfold validateQualifiersSubset at h
    split at h
    · split at h
      · exact absurd h (by simp)
      · exact h
    · exact absurd h (by simp)
    · exact h
  unfold subsetExpiryCheck at hexp
  rw [hoe] at hexp
  simp only [Option.getD_some] at hexp
  cases hde : d.expiresAt with
  | none =>
    rw [hde] at hexp
    simp only [Option.getD_none] at hexp
    rw [if_neg (by simp), if_pos (by simp [hne])] at hexp
    exact absurd hexp (by simp)
  | some de =>
    rw [hde] at hexp
    simp only [Option.getD_some] at hexp
    by_cases hde0 : de = 0
    · rw [if_neg (by simp [hde0]), if_pos (by simp [hne, hde0])] at hexp
      exact absurd hexp (by simp)
    · rw [if_pos ⟨hne, hde0⟩] at hexp
      refine ⟨de, rfl, hde0, ?_⟩
      by_cases hgt : de > oe
      · rw [if_pos hgt] at hexp
        exact absurd hexp (by simp)
      · exact le_of_not_lt hgt

/-- C3 (amended): `validateDelegatedCapability` returns valid only if the
original capability validates with type `delegate`, the delegation is signed
by the original's holder, the returned issuer is the original's issuer, the
delegated kinds are a subset of the original's whenever the original
restricts kinds, and — whenever the original's expiry is set and nonzero
(`0` is JS-falsy and acts as "no expiry") — the delegation's expiry is set,
nonzero, and not later. -/
theorem validateDelegatedCapability_sound (sig : SigFn)
    (jsonPairs : JsonPairsFn) (revoked : List String) (now : Nat)
    (d o : Event) (gp : String) (cap : Capability)
    (h : validateDelegatedCapability sig jsonPairs revoked now d o gp = .ok cap) :
    ∃ oCap, validateCapabilityEvent sig jsonPairs revoked now o gp = .ok oCap ∧
      oCap.type = "delegate" ∧
      d.pubkey = oCap.holder ∧
      cap.issuer = oCap.issuer ∧
      (∀ oks, oCap.qualifiers.bind (fun q => q.kinds) = some oks →
        ∃ dks, cap.qualifiers.bind (fun q => q.kinds) = some dks ∧
          ∀ k ∈ dks, k ∈ oks) ∧
      (∀ oe, oCap.expiresAt = some oe → oe ≠ 0 →
        ∃ de, cap.expiresAt = some de ∧ de ≠ 0 ∧ de ≤ oe) := by
  unfold validateDelegatedCapability at h
  split at h
  next e heq => exact absurd h (by simp)
  next oCap heq =>
    refine ⟨oCap, heq, ?_⟩
    by_cases hty : oCap.type = "delegate"
    case neg =>
      rw [if_pos hty] at h
      exact absurd h (by simp)
    case pos =>
      rw [if_neg (by simpa using hty)] at h
      by_cases hsig : sig d = true
      case neg =>
        rw [if_pos hsig] at h
        exact absurd h (by simp)
      case pos =>
        rw [if_neg (by simpa using hsig)] at h
        by_cases hpk : d.pubkey = oCap.holder
        case neg =>
          rw [if_pos hpk] at h
          exact absurd h (by simp)
        case pos =>
          rw [if_neg (by simpa using hpk)] at h
          by_cases hrv : revoked.contains d.id = true
          case pos =>
            rw [if_pos hrv] at h
            exact absurd h (by simp)
          case neg =>
            rw [if_neg hrv] at h
            split at h
            next hparse => exact absurd h (by simp)
            next dc hparse =>
              by_cases hexp : isCapabilityExpired dc.capability now = true
              case pos =>
                rw [if_pos hexp] at h
                exact absurd h (by simp)
              case neg =>
                rw [if_neg hexp] at h
                split at h
                next e heq2 => exact absurd h (by simp)
                next u hsub =>
                  obtain ⟨⟩ := u
                  obtain rfl : dc.capability = cap := by simpa using h
                  exact ⟨hty, hpk,
                    parseDelegationEvent_issuer jsonPairs d oCap dc hparse,
                    validateQualifiersSubset_kinds oCap dc.capability hsub,
                    validateQualifiersSubset_expiry oCap dc.capability hsub⟩

/-- C3 witness: a concrete delegation with kinds `[9] ⊆ [9, 10]` and expiry
`50 ≤ 100` validates and satisfies every soundness condition. -/
theorem validateDelegatedCapability_sound_witness :
    ∃ oCap, validateCapabilityEvent sigTrue jsonNone [] 3 origGrant100 "G" =
        .ok oCap ∧
      oCap.type = "delegate" ∧
      delegEvent50.pubkey = oCap.holder ∧
      delegCap50.issuer = oCap.issuer ∧
      (∀ oks, oCap.qualifiers.bind (fun q => q.kinds) = some oks →
        ∃ dks, delegCap50.qualifiers.bind (fun q => q.kinds) = some dks ∧
          ∀ k ∈ dks, k ∈ oks) ∧
      (∀ oe, oCap.expiresAt = some oe → oe ≠ 0 →
        ∃ de, delegCap50.expiresAt = some de ∧ de ≠ 0 ∧ de ≤ oe) :=
  validateDelegatedCapability_sound sigTrue jsonNone [] 3 delegEvent50
    origGrant100 "G" delegCap50 (by decide)

-- ============================================================================
-- C9 — the recent-prefix window
-- ============================================================================

theorem addPfx_fresh_small (w : List String) (p : String) (hp : p ∉ w)
    (hlen : w.length + 1 ≤ 1000) : addPfx w p = w ++ [p] := by
  have hc : ¬ (w ++ [p]).length > 1000 := by
    simp only [List.length_append, List.length_cons, List.length_nil]
    omega
  unfold addPfx setAdd
  rw [if_neg hp, if_neg hc]

theorem addPfx_fresh_trim (w : List String) (p : String) (hp : p ∉ w)
    (hlen : w.length = 1000) : addPfx w p = (w ++ [p]).drop 501 := by
  have hc : (w ++ [p]).length > 1000 := by
    simp only [List.length_append, List.length_cons, List.length_nil]
    omega
  have hd : (w ++ [p]).length - 500 = 501 := by
    simp only [List.length_append, List.length_cons, List.length_nil]
    omega
  unfold addPfx setAdd
  rw [if_neg hp, if_pos hc, hd]

theorem addPfx_length (w : List String) (p : String) (h : w.length ≤ 1000) :
    (addPfx w p).length ≤ 1000 := by
  unfold addPfx setAdd
  by_cases hp : p ∈ w
  · rw [if_pos hp, if_neg (by omega)]
    exact h
  · rw [if_neg hp]
    by_cases htrim : (w ++ [p]).length > 1000
    · rw [if_pos htrim]
      simp only [List.length_drop]
      omega
    · rw [if_neg htrim]
      omega

theorem mem_addPfx_self (w : List String) (p : String) (h : w.length ≤ 1000) :
    p ∈ addPfx w p := by
  unfold addPfx setAdd
  by_cases hp : p ∈ w
  · rw [if_pos hp, if_neg (by omega)]
    exact hp
  · rw [if_neg hp]
    by_cases htrim : (w ++ [p]).length > 1000
    · rw [if_pos htrim]
      have hw : w.length = 1000 := by
        simp only [List.length_append, List.length_cons, List.length_nil] at htrim
        omega
      have hle : (w ++ [p]).length - 500 ≤ w.length := by
        simp only [List.length_append, List.length_cons, List.length_nil]
        omega
      rw [List.drop_append_of_le_length hle]
      simp
    · rw [if_neg htrim]
      simp

/-- The prefix window of a fold of `EventStore.add` is the fold of the
window update over the event-id prefixes. -/
theorem storeFold_prefixes (es : List Event) (S : EventStore) :
    (es.foldl EventStore.add S).recentEventPrefixes =
    es.foldl (fun w e => addPfx w (pfx8 e.id)) S.recentEventPrefixes := by
  induction es generalizing S with
  | nil => rfl
  | cons e rest ih =>
    simp only [List.foldl_cons]
    rw [ih (EventStore.add S e)]
    rfl

/-- C9 (amended): the window's size never exceeds 1,000 and it always
contains the prefix of the most recently added event; but when the 1,001st
distinct prefix arrives the window is cut to the 500 most recent insertion
positions, so prefixes of older events among the last 1,000 may be absent
(see the counterexample). -/
theorem recentPrefixWindow_invariant (es : List Event) (e : Event) :
    ((storeAfter (es ++ [e])).recentEventPrefixes).length ≤ 1000 ∧
    pfx8 e.id ∈ (storeAfter (es ++ [e])).recentEventPrefixes := by
  have hlen : ∀ (ps : List Event) (w : List String), w.length ≤ 1000 →
      (ps.foldl (fun w e => addPfx w (pfx8 e.id)) w).length ≤ 1000 := by
    intro ps
    induction ps with
    | nil => intro w h; exact h
    | cons p rest ih =>
      intro w h
      exact ih _ (addPfx_length _ _ h)
  unfold storeAfter
  rw [storeFold_prefixes, List.foldl_append]
  simp only [List.foldl_cons, List.foldl_nil]
  have hw : (es.foldl (fun w e => addPfx w (pfx8 e.id))
      EventStore.empty.recentEventPrefixes).length ≤ 1000 :=
    hlen es _ (by simp [EventStore.empty])
  exact ⟨addPfx_length _ _ hw, mem_addPfx_self _ _ hw⟩

theorem digitChar_inj :
    ∀ d < 10, ∀ d' < 10, digitChar d = digitChar d' → d = d' := by decide

theorem mkId_inj (m n : Nat) (hm : m < 10000) (hn : n < 10000)
    (h : mkId m = mkId n) : m = n := by
  unfold mkId at h
  have hdata := congrArg String.data h
  simp only [List.cons.injEq, and_true] at hdata
  obtain ⟨h1, h2, h3, h4⟩ := hdata
  have e1 := digitChar_inj _ (by omega) _ (by omega) h1
  have e2 := digitChar_inj _ (by omega) _ (by omega) h2
  have e3 := digitChar_inj _ (by omega) _ (by omega) h3
  have e4 := digitChar_inj _ (by omega) _ (by omega) h4
  omega

theorem mkId_not_mem_map (k : Nat) (hk : k < 10000) :
    mkId k ∉ (List.range k).map mkId := by
  intro hmem
  obtain ⟨j, hj, hje⟩ := List.mem_map.mp hmem
  have hjk := List.mem_range.mp hj
  have := mkId_inj j k (by omega) hk hje
  omega

/-- Folding fresh distinct prefixes below the window size just accumulates
them in order. -/
theorem fold_mkId_small : ∀ k, k ≤ 1000 →
    ((List.range k).map mkId).foldl addPfx [] = (List.range k).map mkId := by
  intro k
  induction k with
  | zero => intro _; rfl
  | succ n ih =>
    intro h
    have hlen : ((List.range n).map mkId).length + 1 ≤ 1000 := by
      simp only [List.length_map, List.length_range]
      omega
    rw [List.range_succ, List.map_append, List.foldl_append, ih (by omega)]
    simp only [List.map_cons, List.map_nil, List.foldl_cons, List.foldl_nil]
    rw [addPfx_fresh_small _ _ (mkId_not_mem_map n (by omega)) hlen]

/-- After 1,001 events with distinct prefixes the window holds exactly the
last 500 prefixes. -/
theorem window_after_1001 :
    (storeAfter ((List.range 1001).map mkEv)).recentEventPrefixes =
      ((List.range 1001).map mkId).drop 501 := by
  unfold storeAfter
  rw [storeFold_prefixes, List.foldl_map]
  show (List.range 1001).foldl (fun w n => addPfx w (mkId n)) [] = _
  rw [← List.foldl_map (f := mkId) (g := addPfx)]
  rw [List.range_succ, List.map_append, List.foldl_append,
    fold_mkId_small 1000 (by omega)]
  simp only [List.map_cons, List.map_nil, List.foldl_cons, List.foldl_nil]
  have hlen : ((List.range 1000).map mkId).length = 1000 := by
    simp only [List.length_map, List.length_range]
  rw [addPfx_fresh_trim _ _ (mkId_not_mem_map 1000 (by omega)) hlen]

/-- C9 counterexample: after adding the 1,001 events `mkEv 0 … mkEv 1000`
(all with distinct 4-character ids, hence distinct prefixes), the event
`mkEv 1` is among the 1,000 most recently added events, yet its prefix is
not in the window — the trim kept only the last 500 — refuting the claim
that the window contains the prefix of each of the 1,000 most recent
events. -/
theorem prefixWindow_evicts_recent_event :
    mkEv 1 ∈ (((List.range 1001).map mkEv).drop 1) ∧
    pfx8 (mkEv 1).id ∉
      (storeAfter ((List.range 1001).map mkEv)).recentEventPrefixes := by
  constructor
  · rw [List.range_succ_eq_map]
    simp only [List.map_cons, List.drop_succ_cons, List.drop_zero]
    exact List.mem_map.mpr ⟨1, List.mem_map.mpr
      ⟨0, List.mem_range.mpr (by omega), rfl⟩, rfl⟩
  · rw [show pfx8 (mkEv 1).id = mkId 1 from rfl, window_after_1001,
      ← List.map_drop]
    intro hmem
    obtain ⟨j, hj, hje⟩ := List.mem_map.mp hmem
    have hj1001 : j < 1001 := List.mem_range.mp (List.mem_of_mem_drop hj)
    obtain rfl : j = 1 := mkId_inj j 1 (by omega) (by omega) hje
    have htake : (1 : Nat) ∈ (List.range 1001).take 501 := by
      rw [List.take_range]
      exact List.mem_range.mpr (by omega)
    exact absurd hj ((List.disjoint_take_drop
      (List.nodup_range 1001) (le_refl 501)) htake)

-- ============================================================================
-- C1 — revocation is permanent and targeted
-- ============================================================================

/-- A grant that validates is not in the revoked set. -/
theorem validateCapabilityEvent_not_revoked (sig : SigFn)
    (jsonPairs : JsonPairsFn) (revoked : List String) (now : Nat) (ev : Event)
    (gp : String) (cap : Capability)
    (h : validateCapabilityEvent sig jsonPairs revoked now ev gp = .ok cap) :
    revoked.contains ev.id = false := by
  unfold validateCapabilityEvent at h
  by_cases h1 : sig ev = true
  case neg =>
    rw [if_pos (by simpa using h1)] at h
    exact absurd h (by simp)
  case pos =>
    rw [if_neg (by simpa using h1)] at h
    by_cases h2 : ev.kind = 29000
    case neg =>
      rw [if_pos h2] at h
      exact absurd h (by simp)
    case pos =>
      rw [if_neg (by simp [h2])] at h
      by_cases h3 : ev.pubkey = gp
      case neg =>
        rw [if_pos h3] at h
        exact absurd h (by simp)
      case pos =>
        rw [if_neg (by simp [h3])] at h
        split at h
        next hparse => exact absurd h (by simp)
        next capEvent hparse =>
          by_cases h4 : revoked.contains ev.id = true
          case pos =>
            rw [if_pos h4] at h
            exact absurd h (by simp)
          case neg => simpa using h4

/-- `validateCapabilityEvent` depends on the revoked set only through the
membership of the event's own id. -/
theorem validateCapabilityEvent_congr_revoked (sig : SigFn)
    (jsonPairs : JsonPairsFn) (r₁ r₂ : List String) (now : Nat) (ev : Event)
    (gp : String) (h : r₁.contains ev.id = r₂.contains ev.id) :
    validateCapabilityEvent sig jsonPairs r₁ now ev gp =
      validateCapabilityEvent sig jsonPairs r₂ now ev gp := by
  unfold validateCapabilityEvent
  rw [h]

/-- An authorization witness comes from the supplied capability list. -/
theorem checkAuthorization_authorized_mem (now : Nat)
    (caps : List Capability) (pubkey action : String) (context : AuthContext)
    (cap : Capability)
    (h : checkAuthorization now caps pubkey action context = .authorized cap) :
    cap ∈ caps := by
  have h' : (match caps.find? (fun c => capPasses c pubkey action
      (context.currentTime.getD now) context.eventKind context.eventTags) with
    | some c => AuthResult.authorized c
    | none => AuthResult.denied "No valid capability found") =
      AuthResult.authorized cap := h
  cases hfind : caps.find? (fun c => capPasses c pubkey action
      (context.currentTime.getD now) context.eventKind context.eventTags) with
  | none =>
    rw [hfind] at h'
    exact absurd h' (by simp)
  | some c =>
    rw [hfind] at h'
    obtain rfl : c = cap := by simpa using h'
    exact List.mem_of_find?_eq_some hfind

/-- Once a grant id is revoked and absent from the capabilities map, it
stays so through any further `addCapability` / `addRevocation` calls. -/
theorem capReach_preserves_revoked (e : String) (S₀ S : CapStore)
    (hreach : CapReach S₀ S)
    (hinv : e ∈ S₀.revokedIds ∧ mapGet S₀.capabilities e = none) :
    e ∈ S.revokedIds ∧ mapGet S.capabilities e = none := by
  induction hreach with
  | refl => exact hinv
  | addCap T sig jsonPairs now ev gp hr ih =>
    obtain ⟨h1, h2⟩ := ih
    unfold CapStore.addCapability
    cases hval : validateCapabilityEvent sig jsonPairs T.revokedIds now ev gp with
    | error err => exact ⟨h1, h2⟩
    | ok cap =>
      have hne : e ≠ ev.id := by
        intro hcontra
        have hfalse := validateCapabilityEvent_not_revoked sig jsonPairs
          T.revokedIds now ev gp cap hval
        rw [← hcontra] at hfalse
        rw [show T.revokedIds.contains e = true from by
          simpa [List.elem_iff] using h1] at hfalse
        exact Bool.noConfusion hfalse
      exact ⟨h1, by
        show mapGet (mapSet T.capabilities ev.id ⟨ev, cap⟩) e = none
        rw [mapGet_mapSet_ne _ _ _ _ hne]
        exact h2⟩
  | addRev T sig ev gp hr ih =>
    obtain ⟨h1, h2⟩ := ih
    unfold CapStore.addRevocation
    by_cases hpk : ev.pubkey = gp
    case neg =>
      rw [if_pos hpk]
      exact ⟨h1, h2⟩
    case pos =>
      rw [if_neg (by simp [hpk])]
      by_cases hsg : sig ev = true
      case neg =>
        rw [if_pos (by simpa using hsg)]
        exact ⟨h1, h2⟩
      case pos =>
        rw [if_neg (by simpa using hsg)]
        split
        · exact ⟨h1, h2⟩
        next revocation hparse =>
          split
          next capEvent hcg =>
            exact ⟨(mem_setAdd _ _ _).mpr (Or.inl h1),
              mapGet_mapDel_none _ _ _ h2⟩
          next hcg =>
            exact ⟨(mem_setAdd _ _ _).mpr (Or.inl h1), h2⟩

/-- C1: once `addRevocation` accepts a revocation of grant event id `e` on a
well-formed store, then in every state reachable by further `addCapability`
and `addRevocation` calls: a grant whose event id is `e` is never accepted
again, every witness capability returned by `checkAuthorization` comes from
a stored grant whose event id differs from `e`, and the validation of any
grant with a different id is untouched by the insertion of `e` into the
revoked set. -/
theorem revocation_permanent (sig₀ : SigFn) (S₀ S₁ : CapStore) (rev : Event)
    (gp e : String)
    (hnodup : (keysOf S₀.capabilities).Nodup)
    (hacc : CapStore.addRevocation sig₀ S₀ rev gp = (S₁, true))
    (href : ∃ r, parseRevocationEvent rev = some r ∧ r.revokedEventId = e)
    (S : CapStore) (hreach : CapReach S₁ S) :
    (∀ sig jsonPairs now ev gp' cap, ev.id = e →
      (CapStore.addCapability sig jsonPairs now S ev gp').2 ≠ .ok cap) ∧
    (∀ now pubkey action context cap,
      CapStore.checkAuthorization now S pubkey action context =
        .authorized cap →
      ∃ id ce, mapGet S.capabilities id = some ce ∧ ce.capability = cap ∧
        id ≠ e) ∧
    (∀ sig jsonPairs revoked now ev gp', ev.id ≠ e →
      validateCapabilityEvent sig jsonPairs (setAdd revoked e) now ev gp' =
        validateCapabilityEvent sig jsonPairs revoked now ev gp') := by
  obtain ⟨r, hr, hre⟩ := href
  have hinv₁ : e ∈ S₁.revokedIds ∧ mapGet S₁.capabilities e = none := by
    unfold CapStore.addRevocation at hacc
    by_cases hpk : rev.pubkey = gp
    case neg =>
      rw [if_pos hpk] at hacc
      simp at hacc
    case pos =>
      rw [if_neg (by simp [hpk])] at hacc
      by_cases hsg : sig₀ rev = true
      case neg =>
        rw [if_pos (by simpa using hsg)] at hacc
        simp at hacc
      case pos =>
        rw [if_neg (by simpa using hsg)] at hacc
        split at hacc
        next hparse =>
          rw [hr] at hparse
          exact absurd hparse (by simp)
        next revocation hparse =>
          rw [hr] at hparse
          obtain rfl : revocation = r := Option.some_injective _ hparse.symm
          split at hacc
          next capEvent hcg =>
            have hS := congrArg Prod.fst hacc
            subst hS
            refine ⟨(mem_setAdd _ _ _).mpr (Or.inr hre.symm), ?_⟩
            show mapGet (mapDel S₀.capabilities revocation.revokedEventId) e = none
            rw [hre]
            exact mapGet_mapDel_self _ _ hnodup
          next hcg =>
            have hS := congrArg Prod.fst hacc
            subst hS
            refine ⟨(mem_setAdd _ _ _).mpr (Or.inr hre.symm), ?_⟩
            show mapGet S₀.capabilities e = none
            rw [← hre]
            exact hcg
  have hinv := capReach_preserves_revoked e S₁ S hreach hinv₁
  refine ⟨?_, ?_, ?_⟩
  · intro sig jsonPairs now ev gp' cap hid hcontra
    unfold CapStore.addCapability at hcontra
    cases hval : validateCapabilityEvent sig jsonPairs S.revokedIds now ev gp' with
    | error err =>
      rw [hval] at hcontra
      exact absurd hcontra (by simp)
    | ok cap' =>
      rw [hval] at hcontra
      have hfalse := validateCapabilityEvent_not_revoked sig jsonPairs
        S.revokedIds now ev gp' cap' hval
      rw [hid] at hfalse
      rw [show S.revokedIds.contains e = true from by
        simpa [List.elem_iff] using hinv.1] at hfalse
      exact Bool.noConfusion hfalse
  · intro now pubkey action context cap hauth
    have hmem : cap ∈ CapStore.getCapabilitiesForHolder now S pubkey :=
      checkAuthorization_authorized_mem now _ pubkey action context cap hauth
    unfold CapStore.getCapabilitiesForHolder at hmem
    split at hmem
    next hbh => exact absurd hmem (by simp)
    next ids hbh =>
      obtain ⟨id, hidmem, hid⟩ := List.mem_filterMap.mp hmem
      split at hid
      next ce hcg =>
        by_cases hexp : isCapabilityExpired ce.capability now = true
        case pos =>
          rw [if_pos hexp] at hid
          exact absurd hid (by simp)
        case neg =>
          rw [if_neg hexp] at hid
          refine ⟨id, ce, hcg, by simpa using hid, ?_⟩
          intro hcontra
          rw [hcontra, hinv.2] at hcg
          exact Option.noConfusion hcg
      next hcg => exact absurd hid (by simp)
  · intro sig jsonPairs revoked now ev gp' hne
    refine validateCapabilityEvent_congr_revoked sig jsonPairs _ _ now ev gp' ?_
    by_cases hm : ev.id ∈ revoked
    · rw [show (setAdd revoked e).contains ev.id = true from by
        simpa [List.elem_iff] using (mem_setAdd revoked e ev.id).mpr (Or.inl hm)]
      rw [show revoked.contains ev.id = true from by
        simpa [List.elem_iff] using hm]
    · have hset : ev.id ∉ setAdd revoked e := by
        rw [mem_setAdd]
        rintro (hmm | hmm)
        · exact hm hmm
        · exact hne hmm
      have hc1 : (setAdd revoked e).contains ev.id = false := by
        rw [← Bool.not_eq_true]
        intro hc
        exact hset (List.elem_iff.mp hc)
      have hc2 : revoked.contains ev.id = false := by
        rw [← Bool.not_eq_true]
        intro hc
        exact hm (List.elem_iff.mp hc)
      rw [hc1, hc2]

/-- C1 witness: revoking grant id `x1` on the empty store is accepted, and
re-submitting a grant with id `x1` to the resulting store is refused. -/
theorem revocation_permanent_witness :
    CapStore.addRevocation sigTrue CapStore.empty revEventX1 "G" =
      (storeAfterRev, true) ∧
    (CapStore.addCapability sigTrue jsonNone 6 storeAfterRev
      grantEventX1 "G").2 ≠
      .ok { type := "write", holder := "H", issuer := "G", issuedAt := 6 } :=
  ⟨by decide,
    (revocation_permanent sigTrue CapStore.empty storeAfterRev revEventX1 "G"
      "x1" (by simp [CapStore.empty, keysOf]) (by decide)
      ⟨⟨revEventX1, "x1", "G", 5⟩, by decide, rfl⟩
      storeAfterRev (CapReach.refl storeAfterRev)).1
      sigTrue jsonNone 6 grantEventX1 "G"
      { type := "write", holder := "H", issuer := "G", issuedAt := 6 } rfl⟩

-- ============================================================================
-- C7 / C10 — the event store: index well-formedness
-- ============================================================================

theorem mem_setDel [DecidableEq α] (s : List α) (a b : α) :
    b ∈ setDel s a ↔ b ∈ s ∧ b ≠ a := by
  simp [setDel]

theorem mapGet_mapDel_ne [DecidableEq α] (m : List (α × β)) (k k' : α)
    (h : k' ≠ k) : mapGet (mapDel m k) k' = mapGet m k' := by
  induction m with
  | nil => simp [mapDel]
  | cons p rest ih =>
    obtain ⟨k₀, v₀⟩ := p
    by_cases hk : k₀ = k
    · subst hk
      simp [mapDel, mapGet, Ne.symm h]
    · simp [mapDel, hk, mapGet, ih]

theorem mem_keysOf [DecidableEq α] (m : List (α × β)) (k : α) :
    k ∈ keysOf m ↔ (mapGet m k).isSome := by
  rcases hk : mapGet m k with _ | v
  · simp [(mapGet_eq_none_iff m k).mp hk]
  · constructor
    · intro _
      simp
    · intro _
      by_contra hmem
      rw [(mapGet_eq_none_iff m k).mpr hmem] at hk
      exact Option.noConfusion hk

theorem keysOf_mapSet [DecidableEq α] (m : List (α × β)) (k : α) (v : β) :
    keysOf (mapSet m k v) =
      if k ∈ keysOf m then keysOf m else keysOf m ++ [k] := by
  induction m with
  | nil => simp [mapSet, keysOf]
  | cons p rest ih =>
    obtain ⟨k₀, v₀⟩ := p
    by_cases hk : k₀ = k
    · subst hk
      simp [mapSet, keysOf]
    · have hcons : keysOf (mapSet ((k₀, v₀) :: rest) k v) =
          k₀ :: keysOf (mapSet rest k v) := by
        simp [mapSet, hk, keysOf]
      have hkeys : keysOf ((k₀, v₀) :: rest) = k₀ :: keysOf rest := rfl
      by_cases hmem : k ∈ keysOf rest
      · rw [hcons, ih, if_pos hmem, hkeys, if_pos (List.mem_cons_of_mem _ hmem)]
      · have hnot : k ∉ k₀ :: keysOf rest := by
          intro hmm
          rcases List.mem_cons.mp hmm with h1 | h1
          · exact hk h1.symm
          · exact hmem h1
        rw [hcons, ih, if_neg hmem, hkeys, if_neg hnot]
        rfl

theorem mem_foldl_setAdd [DecidableEq α] (l : List α) (acc : List α) (x : α) :
    x ∈ l.foldl setAdd acc ↔ x ∈ acc ∨ x ∈ l := by
  induction l generalizing acc with
  | nil => simp
  | cons a rest ih =>
    simp only [List.foldl_cons, ih (setAdd acc a), mem_setAdd, List.mem_cons]
    tauto

theorem mem_unionIndex [DecidableEq κ] (idx : List (κ × List String))
    (keys : List κ) (id : String) :
    id ∈ unionIndex idx keys ↔ ∃ k ∈ keys, id ∈ (mapGet idx k).getD [] := by
  unfold unionIndex
  suffices h : ∀ acc, id ∈ keys.foldl
      (fun acc k => ((mapGet idx k).getD []).foldl setAdd acc) acc ↔
      id ∈ acc ∨ ∃ k ∈ keys, id ∈ (mapGet idx k).getD [] by
    simpa using h []
  induction keys with
  | nil => simp
  | cons a rest ih =>
    intro acc
    simp only [List.foldl_cons, ih, mem_foldl_setAdd, List.mem_cons]
    constructor
    · rintro ((h | h) | ⟨k, hk, hmem⟩)
      · exact Or.inl h
      · exact Or.inr ⟨a, Or.inl rfl, h⟩
      · exact Or.inr ⟨k, Or.inr hk, hmem⟩
    · rintro (h | ⟨k, (rfl | hk), hmem⟩)
      · exact Or.inl (Or.inl h)
      · exact Or.inl (Or.inr hmem)
      · exact Or.inr ⟨k, hk, hmem⟩

theorem idxOK_empty (keyOf : Event → Option κ) [DecidableEq κ] :
    IdxOK keyOf [] [] := by
  intro k id
  simp [mapGet]

theorem idxOK_add_some (keyOf : Event → Option κ) [DecidableEq κ]
    (events : List (String × Event)) (idx : List (κ × List String)) (e : Event)
    (k₀ : κ) (hkey : keyOf e = some k₀) (h : IdxOK keyOf events idx)
    (hfresh : mapGet events e.id = none ∨ mapGet events e.id = some e) :
    IdxOK keyOf (mapSet events e.id e)
      (mapSet idx k₀ (setAdd ((mapGet idx k₀).getD []) e.id)) := by
  intro k id
  by_cases hid : id = e.id
  · subst hid
    rw [mapGet_mapSet_self]
    by_cases hkk : k = k₀
    · subst hkk
      rw [mapGet_mapSet_self]
      simp only [Option.getD_some]
      constructor
      · intro _
        exact ⟨e, rfl, hkey⟩
      · intro _
        exact self_mem_setAdd _ _
    · rw [mapGet_mapSet_ne _ _ _ _ hkk]
      constructor
      · intro hmem
        obtain ⟨e', he', hke'⟩ := (h k e.id).mp hmem
        rcases hfresh with hf | hf
        · rw [hf] at he'
          exact absurd he' (by simp)
        · rw [hf] at he'
          obtain rfl : e = e' := Option.some_injective _ he'
          rw [hkey] at hke'
          exact absurd (Option.some_injective _ hke') (fun hh => hkk hh.symm)
      · rintro ⟨e', he', hke'⟩
        obtain rfl : e = e' := Option.some_injective _ he'
        rw [hkey] at hke'
        exact absurd (Option.some_injective _ hke') (fun hh => hkk hh.symm)
  · rw [mapGet_mapSet_ne _ _ _ _ hid]
    by_cases hkk : k = k₀
    · subst hkk
      rw [mapGet_mapSet_self]
      simp only [Option.getD_some]
      rw [mem_setAdd]
      constructor
      · rintro (hmem | rfl)
        · exact (h _ id).mp hmem
        · exact absurd rfl hid
      · intro hx
        exact Or.inl ((h _ id).mpr hx)
    · rw [mapGet_mapSet_ne _ _ _ _ hkk]
      exact h k id

theorem idxOK_add_none (keyOf : Event → Option κ) [DecidableEq κ]
    (events : List (String × Event)) (idx : List (κ × List String)) (e : Event)
    (hkey : keyOf e = none) (h : IdxOK keyOf events idx)
    (hfresh : mapGet events e.id = none ∨ mapGet events e.id = some e) :
    IdxOK keyOf (mapSet events e.id e) idx := by
  intro k id
  by_cases hid : id = e.id
  · subst hid
    rw [mapGet_mapSet_self]
    constructor
    · intro hmem
      obtain ⟨e', he', hke'⟩ := (h k e.id).mp hmem
      rcases hfresh with hf | hf
      · rw [hf] at he'
        exact absurd he' (by simp)
      · rw [hf] at he'
        obtain rfl : e = e' := Option.some_injective _ he'
        rw [hkey] at hke'
        exact absurd hke' (by simp)
    · rintro ⟨e', he', hke'⟩
      obtain rfl : e = e' := Option.some_injective _ he'
      rw [hkey] at hke'
      exact absurd hke' (by simp)
  · rw [mapGet_mapSet_ne _ _ _ _ hid]
    exact h k id

theorem idxOK_del_some (keyOf : Event → Option κ) [DecidableEq κ]
    (events : List (String × Event)) (idx : List (κ × List String))
    (id₀ : String) (e₀ : Event) (k₀ : κ)
    (he₀ : mapGet events id₀ = some e₀) (hkey : keyOf e₀ = some k₀)
    (hnodup : (keysOf events).Nodup) (h : IdxOK keyOf events idx) :
    IdxOK keyOf (mapDel events id₀)
      (match mapGet idx k₀ with
       | some s => mapSet idx k₀ (setDel s id₀)
       | none => idx) := by
  cases hs : mapGet idx k₀ with
  | none =>
    intro k id
    by_cases hid : id = id₀
    · subst hid
      rw [mapGet_mapDel_self _ _ hnodup]
      constructor
      · intro hmem
        obtain ⟨e', he', hke'⟩ := (h k id).mp hmem
        rw [he₀] at he'
        obtain rfl : e₀ = e' := Option.some_injective _ he'
        rw [hkey] at hke'
        obtain rfl : k₀ = k := Option.some_injective _ hke'
        rw [hs] at hmem
        exact absurd hmem (by simp)
      · rintro ⟨e', he', hke'⟩
        exact absurd he' (by simp)
    · rw [mapGet_mapDel_ne _ _ _ hid]
      exact h k id
  | some s =>
    intro k id
    by_cases hid : id = id₀
    · subst hid
      rw [mapGet_mapDel_self _ _ hnodup]
      by_cases hkk : k = k₀
      · subst hkk
        rw [mapGet_mapSet_self]
        simp only [Option.getD_some]
        rw [mem_setDel]
        constructor
        · rintro ⟨-, hne⟩
          exact absurd rfl hne
        · rintro ⟨e', he', hke'⟩
          exact absurd he' (by simp)
      · rw [mapGet_mapSet_ne _ _ _ _ hkk]
        constructor
        · intro hmem
          obtain ⟨e', he', hke'⟩ := (h k id).mp hmem
          rw [he₀] at he'
          obtain rfl : e₀ = e' := Option.some_injective _ he'
          rw [hkey] at hke'
          exact absurd (Option.some_injective _ hke') (fun hh => hkk hh.symm)
        · rintro ⟨e', he', hke'⟩
          exact absurd he' (by simp)
    · rw [mapGet_mapDel_ne _ _ _ hid]
      by_cases hkk : k = k₀
      · subst hkk
        rw [mapGet_mapSet_self]
        simp only [Option.getD_some]
        rw [mem_setDel]
        have hold := h k id
        rw [hs] at hold
        simp only [Option.getD_some] at hold
        constructor
        · rintro ⟨hmem, -⟩
          exact hold.mp hmem
        · intro hx
          exact ⟨hold.mpr hx, hid⟩
      · rw [mapGet_mapSet_ne _ _ _ _ hkk]
        exact h k id

theorem idxOK_del_none_key (keyOf : Event → Option κ) [DecidableEq κ]
    (events : List (String × Event)) (idx : List (κ × List String))
    (id₀ : String) (e₀ : Event)
    (he₀ : mapGet events id₀ = some e₀) (hkey : keyOf e₀ = none)
    (hnodup : (keysOf events).Nodup) (h : IdxOK keyOf events idx) :
    IdxOK keyOf (mapDel events id₀) idx := by
  intro k id
  by_cases hid : id = id₀
  · subst hid
    rw [mapGet_mapDel_self _ _ hnodup]
    constructor
    · intro hmem
      obtain ⟨e', he', hke'⟩ := (h k id).mp hmem
      rw [he₀] at he'
      obtain rfl : e₀ = e' := Option.some_injective _ he'
      rw [hkey] at hke'
      exact absurd hke' (by simp)
    · rintro ⟨e', he', hke'⟩
      exact absurd he' (by simp)
  · rw [mapGet_mapDel_ne _ _ _ hid]
    exact h k id

theorem keysOf_mapDel_sublist [DecidableEq α] (m : List (α × β)) (k : α) :
    (keysOf (mapDel m k)).Sublist (keysOf m) := by
  induction m with
  | nil => simp [mapDel, keysOf]
  | cons p rest ih =>
    obtain ⟨k₀, v₀⟩ := p
    by_cases hk : k₀ = k
    · show (keysOf (if k₀ = k then rest else (k₀, v₀) :: mapDel rest k)).Sublist _
      rw [if_pos hk]
      exact List.sublist_cons_self k₀ (keysOf rest)
    · show (keysOf (if k₀ = k then rest else (k₀, v₀) :: mapDel rest k)).Sublist _
      rw [if_neg hk]
      exact List.Sublist.cons₂ _ ih

theorem wf_empty : EventStoreWF EventStore.empty := by
  refine ⟨by simp [EventStore.empty, keysOf], ?_, ?_, ?_, ?_⟩
  · intro id e h
    exact absurd h (by simp [EventStore.empty, mapGet])
  · exact idxOK_empty getGroupId
  · exact idxOK_empty (fun e => some e.pubkey)
  · exact idxOK_empty (fun e => some e.kind)

theorem wf_add (S : EventStore) (e : Event) (hWF : EventStoreWF S)
    (hfresh : mapGet S.events e.id = none ∨ mapGet S.events e.id = some e) :
    EventStoreWF (EventStore.add S e) := by
  refine ⟨?_, ?_, ?_, ?_, ?_⟩
  · show (keysOf (mapSet S.events e.id e)).Nodup
    rw [keysOf_mapSet]
    by_cases hmem : e.id ∈ keysOf S.events
    · rw [if_pos hmem]
      exact hWF.nodupKeys
    · rw [if_neg hmem, List.nodup_append]
      refine ⟨hWF.nodupKeys, List.nodup_singleton _, ?_⟩
      intro a ha hb
      rw [List.mem_singleton] at hb
      subst hb
      exact hmem ha
  · show ∀ id ev, mapGet (mapSet S.events e.id e) id = some ev → ev.id = id
    intro id ev hid
    by_cases h : id = e.id
    · subst h
      rw [mapGet_mapSet_self] at hid
      obtain rfl : e = ev := Option.some_injective _ hid
      rfl
    · rw [mapGet_mapSet_ne _ _ _ _ h] at hid
      exact hWF.keyIsId id ev hid
  · show IdxOK getGroupId (mapSet S.events e.id e)
      (match getGroupId e with
       | some groupId =>
         mapSet S.byGroup groupId
           (setAdd ((mapGet S.byGroup groupId).getD []) e.id)
       | none => S.byGroup)
    cases hg : getGroupId e with
    | some g =>
      exact idxOK_add_some getGroupId S.events S.byGroup e g hg
        hWF.groupIdx hfresh
    | none =>
      exact idxOK_add_none getGroupId S.events S.byGroup e hg
        hWF.groupIdx hfresh
  · exact idxOK_add_some (fun ev => some ev.pubkey) S.events S.byAuthor e
      e.pubkey rfl hWF.authorIdx hfresh
  · exact idxOK_add_some (fun ev => some ev.kind) S.events S.byKind e
      e.kind rfl hWF.kindIdx hfresh

theorem wf_delete (S : EventStore) (id₀ : String) (hWF : EventStoreWF S) :
    EventStoreWF (EventStore.delete S id₀) := by
  unfold EventStore.delete
  cases he : mapGet S.events id₀ with
  | none => exact hWF
  | some e₀ =>
    refine ⟨?_, ?_, ?_, ?_, ?_⟩
    · show (keysOf (mapDel S.events id₀)).Nodup
      exact (keysOf_mapDel_sublist S.events id₀).nodup hWF.nodupKeys
    · show ∀ id ev, mapGet (mapDel S.events id₀) id = some ev → ev.id = id
      intro id ev hid
      by_cases h : id = id₀
      · subst h
        rw [mapGet_mapDel_self _ _ hWF.nodupKeys] at hid
        exact absurd hid (by simp)
      · rw [mapGet_mapDel_ne _ _ _ h] at hid
        exact hWF.keyIsId id ev hid
    · show IdxOK getGroupId (mapDel S.events id₀)
        (match getGroupId e₀ with
         | some groupId =>
           match mapGet S.byGroup groupId with
           | some s => mapSet S.byGroup groupId (setDel s id₀)
           | none => S.byGroup
         | none => S.byGroup)
      cases hg : getGroupId e₀ with
      | some g =>
        exact idxOK_del_some getGroupId S.events S.byGroup id₀ e₀ g he hg
          hWF.nodupKeys hWF.groupIdx
      | none =>
        exact idxOK_del_none_key getGroupId S.events S.byGroup id₀ e₀ he hg
          hWF.nodupKeys hWF.groupIdx
    · show IdxOK (fun ev => some ev.pubkey) (mapDel S.events id₀)
        (match mapGet S.byAuthor e₀.pubkey with
         | some s => mapSet S.byAuthor e₀.pubkey (setDel s id₀)
         | none => S.byAuthor)
      exact idxOK_del_some (fun ev => some ev.pubkey) S.events S.byAuthor id₀
        e₀ e₀.pubkey he rfl hWF.nodupKeys hWF.authorIdx
    · show IdxOK (fun ev => some ev.kind) (mapDel S.events id₀)
        (match mapGet S.byKind e₀.kind with
         | some s => mapSet S.byKind e₀.kind (setDel s id₀)
         | none => S.byKind)
      exact idxOK_del_some (fun ev => some ev.kind) S.events S.byKind id₀
        e₀ e₀.kind he rfl hWF.nodupKeys hWF.kindIdx

/-- Every reachable event-store state is well-formed. -/
theorem storeReach_wf (S : EventStore) (h : StoreReach S) : EventStoreWF S := by
  induction h with
  | empty => exact wf_empty
  | add S e _ hfresh ih => exact wf_add S e ih hfresh
  | del S id _ ih => exact wf_delete S id ih

-- ============================================================================
-- C7 / C10 — the candidate narrowing of `query`
-- ============================================================================

theorem mem_candRestrict (c : Option (List String)) (K X : List String)
    (id : String) (P Q : Prop)
    (hc : id ∈ c.getD K ↔ id ∈ K ∧ P)
    (hX : id ∈ X ↔ id ∈ K ∧ Q) :
    id ∈ (candRestrict c X).getD K ↔ id ∈ K ∧ P ∧ Q := by
  cases c with
  | none =>
    show id ∈ X ↔ _
    rw [hX]
    simp only [Option.getD_none] at hc
    constructor
    · rintro ⟨hK, hQ⟩
      exact ⟨hK, (hc.mp hK).2, hQ⟩
    · rintro ⟨hK, _, hQ⟩
      exact ⟨hK, hQ⟩
  | some cl =>
    show id ∈ cl.filter (fun id => X.contains id) ↔ _
    rw [List.mem_filter]
    simp only [Option.getD_some] at hc
    constructor
    · rintro ⟨hmem, hcont⟩
      have hx := hX.mp (List.elem_iff.mp hcont)
      obtain ⟨hK, hP⟩ := hc.mp hmem
      exact ⟨hK, hP, hx.2⟩
    · rintro ⟨hK, hP, hQ⟩
      refine ⟨hc.mpr ⟨hK, hP⟩, List.elem_iff.mpr (hX.mpr ⟨hK, hQ⟩)⟩

theorem mem_candStage1 (S : EventStore) (f : Filter) (id : String) :
    id ∈ (candStage1 S f).getD (keysOf S.events) ↔
      id ∈ keysOf S.events ∧
      (match f.ids with
       | some ids => ids.isEmpty = true ∨ id ∈ ids
       | none => True) := by
  cases hids : f.ids with
  | none =>
    have hred : candStage1 S f = none := by
      unfold candStage1
      rw [hids]
    rw [hred]
    exact ⟨fun h => ⟨h, True.intro⟩, fun h => h.1⟩
  | some ids =>
    by_cases hemp : ids.isEmpty = true
    · have hred : candStage1 S f = none := by
        unfold candStage1
        rw [hids]
        show (if ids.isEmpty = true then none
          else some (ids.filter (fun id => (mapGet S.events id).isSome)))
          = (none : Option (List String))
        rw [if_pos hemp]
      rw [hred]
      exact ⟨fun h => ⟨h, Or.inl hemp⟩, fun h => h.1⟩
    · have hred : candStage1 S f
          = some (ids.filter (fun id => (mapGet S.events id).isSome)) := by
        unfold candStage1
        rw [hids]
        show (if ids.isEmpty = true then none
          else some (ids.filter (fun id => (mapGet S.events id).isSome))) = _
        rw [if_neg hemp]
      rw [hred]
      show id ∈ ids.filter (fun id => (mapGet S.events id).isSome) ↔ _
      rw [List.mem_filter]
      constructor
      · rintro ⟨hmem, hsome⟩
        exact ⟨(mem_keysOf _ _).mpr hsome, Or.inr hmem⟩
      · rintro ⟨hK, hor⟩
        have hor' : ids.isEmpty = true ∨ id ∈ ids := hor
        cases hor' with
        | inl habs => exact absurd habs hemp
        | inr hmem => exact ⟨hmem, (mem_keysOf _ _).mp hK⟩

theorem mem_candStage2 (S : EventStore) (hWF : EventStoreWF S) (f : Filter)
    (id : String) :
    id ∈ (candStage2 S f).getD (keysOf S.events) ↔
      id ∈ keysOf S.events ∧
      (match f.ids with
       | some ids => ids.isEmpty = true ∨ id ∈ ids
       | none => True) ∧
      (match f.tagH with
       | some hs => hs.isEmpty = true ∨
           ∃ e, mapGet S.events id = some e ∧ ∃ g ∈ hs, getGroupId e = some g
       | none => True) := by
  cases hh : f.tagH with
  | none =>
    have hred : candStage2 S f = candStage1 S f := by
      unfold candStage2
      rw [hh]
    rw [hred]
    simpa using mem_candStage1 S f id
  | some hs =>
    by_cases hemp : hs.isEmpty = true
    · have hred : candStage2 S f = candStage1 S f := by
        unfold candStage2
        rw [hh]
        show (if hs.isEmpty = true then candStage1 S f
          else candRestrict (candStage1 S f) (unionIndex S.byGroup hs)) = _
        rw [if_pos hemp]
      rw [hred]
      simpa [hemp] using mem_candStage1 S f id
    · have hred : candStage2 S f
          = candRestrict (candStage1 S f) (unionIndex S.byGroup hs) := by
        unfold candStage2
        rw [hh]
        show (if hs.isEmpty = true then candStage1 S f
          else candRestrict (candStage1 S f) (unionIndex S.byGroup hs)) = _
        rw [if_neg hemp]
      rw [hred]
      have hX : id ∈ unionIndex S.byGroup hs ↔
          id ∈ keysOf S.events ∧
          (∃ e, mapGet S.events id = some e ∧ ∃ g ∈ hs, getGroupId e = some g) := by
        rw [mem_unionIndex]
        constructor
        · rintro ⟨g, hg, hmem⟩
          obtain ⟨e, he, hge⟩ := (hWF.groupIdx g id).mp hmem
          exact ⟨(mem_keysOf _ _).mpr (by simp [he]), e, he, g, hg, hge⟩
        · rintro ⟨hK, e, he, g, hg, hge⟩
          exact ⟨g, hg, (hWF.groupIdx g id).mpr ⟨e, he, hge⟩⟩
      have hstep := mem_candRestrict (candStage1 S f) (keysOf S.events)
        (unionIndex S.byGroup hs) id _ _ (mem_candStage1 S f id) hX
      rw [hstep]
      constructor
      · rintro ⟨hK, hP, hQ⟩
        exact ⟨hK, hP, Or.inr hQ⟩
      · rintro ⟨hK, hP, habs | hQ⟩
        · exact absurd habs hemp
        · exact ⟨hK, hP, hQ⟩

theorem mem_candStage3 (S : EventStore) (hWF : EventStoreWF S) (f : Filter)
    (id : String) :
    id ∈ (candStage3 S f).getD (keysOf S.events) ↔
      id ∈ keysOf S.events ∧
      (match f.ids with
       | some ids => ids.isEmpty = true ∨ id ∈ ids
       | none => True) ∧
      (match f.tagH with
       | some hs => hs.isEmpty = true ∨
           ∃ e, mapGet S.events id = some e ∧ ∃ g ∈ hs, getGroupId e = some g
       | none => True) ∧
      (match f.authors with
       | some as => as.isEmpty = true ∨
           ∃ e, mapGet S.events id = some e ∧ e.pubkey ∈ as
       | none => True) := by
  cases ha : f.authors with
  | none =>
    have hred : candStage3 S f = candStage2 S f := by
      unfold candStage3
      rw [ha]
    rw [hred]
    simpa using mem_candStage2 S hWF f id
  | some as =>
    by_cases hemp : as.isEmpty = true
    · have hred : candStage3 S f = candStage2 S f := by
        unfold candStage3
        rw [ha]
        show (if as.isEmpty = true then candStage2 S f
          else candRestrict (candStage2 S f) (unionIndex S.byAuthor as)) = _
        rw [if_pos hemp]
      rw [hred]
      simpa [hemp] using mem_candStage2 S hWF f id
    · have hred : candStage3 S f
          = candRestrict (candStage2 S f) (unionIndex S.byAuthor as) := by
        unfold candStage3
        rw [ha]
        show (if as.isEmpty = true then candStage2 S f
          else candRestrict (candStage2 S f) (unionIndex S.byAuthor as)) = _
        rw [if_neg hemp]
      rw [hred]
      have hX : id ∈ unionIndex S.byAuthor as ↔
          id ∈ keysOf S.events ∧
          (∃ e, mapGet S.events id = some e ∧ e.pubkey ∈ as) := by
        rw [mem_unionIndex]
        constructor
        · rintro ⟨a, hga, hmem⟩
          obtain ⟨e, he, hpe⟩ := (hWF.authorIdx a id).mp hmem
          obtain rfl : e.pubkey = a := Option.some_injective _ hpe
          exact ⟨(mem_keysOf _ _).mpr (by simp [he]), e, he, hga⟩
        · rintro ⟨hK, e, he, hpe⟩
          exact ⟨e.pubkey, hpe, (hWF.authorIdx e.pubkey id).mpr ⟨e, he, rfl⟩⟩
      have hstep := mem_candRestrict (candStage2 S f) (keysOf S.events)
        (unionIndex S.byAuthor as) id _ _ (mem_candStage2 S hWF f id) hX
      rw [hstep]
      constructor
      · rintro ⟨hK, ⟨hP1, hP2⟩, hQ⟩
        exact ⟨hK, hP1, hP2, Or.inr hQ⟩
      · rintro ⟨hK, hP1, hP2, habs | hQ⟩
        · exact absurd habs hemp
        · exact ⟨hK, ⟨hP1, hP2⟩, hQ⟩

theorem mem_queryCandidates (S : EventStore) (hWF : EventStoreWF S)
    (f : Filter) (id : String) :
    id ∈ (queryCandidates S f).getD (keysOf S.events) ↔
      id ∈ keysOf S.events ∧
      (match f.ids with
       | some ids => ids.isEmpty = true ∨ id ∈ ids
       | none => True) ∧
      (match f.tagH with
       | some hs => hs.isEmpty = true ∨
           ∃ e, mapGet S.events id = some e ∧ ∃ g ∈ hs, getGroupId e = some g
       | none => True) ∧
      (match f.authors with
       | some as => as.isEmpty = true ∨
           ∃ e, mapGet S.events id = some e ∧ e.pubkey ∈ as
       | none => True) ∧
      (match f.kinds with
       | some ks => ks.isEmpty = true ∨
           ∃ e, mapGet S.events id = some e ∧ e.kind ∈ ks
       | none => True) := by
  cases hk : f.kinds with
  | none =>
    have hred : queryCandidates S f = candStage3 S f := by
      unfold queryCandidates
      rw [hk]
    rw [hred]
    simpa using mem_candStage3 S hWF f id
  | some ks =>
    by_cases hemp : ks.isEmpty = true
    · have hred : queryCandidates S f = candStage3 S f := by
        unfold queryCandidates
        rw [hk]
        show (if ks.isEmpty = true then candStage3 S f
          else candRestrict (candStage3 S f) (unionIndex S.byKind ks)) = _
        rw [if_pos hemp]
      rw [hred]
      simpa [hemp] using mem_candStage3 S hWF f id
    · have hred : queryCandidates S f
          = candRestrict (candStage3 S f) (unionIndex S.byKind ks) := by
        unfold queryCandidates
        rw [hk]
        show (if ks.isEmpty = true then candStage3 S f
          else candRestrict (candStage3 S f) (unionIndex S.byKind ks)) = _
        rw [if_neg hemp]
      rw [hred]
      have hX : id ∈ unionIndex S.byKind ks ↔
          id ∈ keysOf S.events ∧
          (∃ e, mapGet S.events id = some e ∧ e.kind ∈ ks) := by
        rw [mem_unionIndex]
        constructor
        · rintro ⟨a, hga, hmem⟩
          obtain ⟨e, he, hpe⟩ := (hWF.kindIdx a id).mp hmem
          obtain rfl : e.kind = a := Option.some_injective _ hpe
          exact ⟨(mem_keysOf _ _).mpr (by simp [he]), e, he, hga⟩
        · rintro ⟨hK, e, he, hpe⟩
          exact ⟨e.kind, hpe, (hWF.kindIdx e.kind id).mpr ⟨e, he, rfl⟩⟩
      have hstep := mem_candRestrict (candStage3 S f) (keysOf S.events)
        (unionIndex S.byKind ks) id _ _ (mem_candStage3 S hWF f id) hX
      rw [hstep]
      constructor
      · rintro ⟨hK, ⟨hP1, hP2, hP3⟩, hQ⟩
        exact ⟨hK, hP1, hP2, hP3, Or.inr hQ⟩
      · rintro ⟨hK, hP1, hP2, hP3, habs | hQ⟩
        · exact absurd habs hemp
        · exact ⟨hK, ⟨hP1, hP2, hP3⟩, hQ⟩

theorem filterClausesHold_iff (f : Filter) (e : Event) :
    filterClausesHold f e = true ↔
      (match f.ids with
       | some ids => ids.isEmpty = true ∨ e.id ∈ ids
       | none => True) ∧
      (match f.tagH with
       | some hs => hs.isEmpty = true ∨ ∃ g ∈ hs, getGroupId e = some g
       | none => True) ∧
      (match f.authors with
       | some as => as.isEmpty = true ∨ e.pubkey ∈ as
       | none => True) ∧
      (match f.kinds with
       | some ks => ks.isEmpty = true ∨ e.kind ∈ ks
       | none => True) ∧
      (match f.since with
       | some s => e.created_at ≥ s
       | none => True) ∧
      (match f.until' with
       | some u => e.created_at ≤ u
       | none => True) ∧
      (match f.tagE with
       | some es => es.isEmpty = true ∨ ∃ v ∈ es, v ∈ eTagVals e
       | none => True) ∧
      (match f.tagP with
       | some ps => ps.isEmpty = true ∨ ∃ v ∈ ps, v ∈ pTagVals e
       | none => True) := by
  unfold filterClausesHold
  simp only [Bool.and_eq_true, and_assoc]
  refine and_congr ?_ (and_congr ?_ (and_congr ?_ (and_congr ?_ (and_congr ?_
    (and_congr ?_ (and_congr ?_ ?_))))))
  · cases h : f.ids with
    | none => simp
    | some ids => simp [List.elem_iff]
  · cases h : f.tagH with
    | none => simp
    | some hs =>
      cases hg : getGroupId e with
      | none => simp
      | some g => simp [List.elem_iff]
  · cases h : f.authors with
    | none => simp
    | some as => simp [List.elem_iff]
  · cases h : f.kinds with
    | none => simp
    | some ks => simp [List.elem_iff]
  · cases h : f.since with
    | none => simp
    | some s => simp
  · cases h : f.until' with
    | none => simp
    | some u => simp
  · cases h : f.tagE with
    | none => simp
    | some es => simp [List.any_eq_true, List.elem_iff]
  · cases h : f.tagP with
    | none => simp
    | some ps => simp [List.any_eq_true, List.elem_iff]

theorem matchesFilter_iff (e : Event) (f : Filter) :
    matchesFilter e f = true ↔
      (match f.since with
       | some s => e.created_at ≥ s
       | none => True) ∧
      (match f.until' with
       | some u => e.created_at ≤ u
       | none => True) ∧
      (match f.tagE with
       | some es => es.isEmpty = true ∨ ∃ v ∈ es, v ∈ eTagVals e
       | none => True) ∧
      (match f.tagP with
       | some ps => ps.isEmpty = true ∨ ∃ v ∈ ps, v ∈ pTagVals e
       | none => True) := by
  unfold matchesFilter
  simp only [Bool.and_eq_true, and_assoc]
  refine and_congr ?_ (and_congr ?_ (and_congr ?_ ?_))
  · cases h : f.since with
    | none => simp
    | some s => simp
  · cases h : f.until' with
    | none => simp
    | some u => simp
  · cases h : f.tagE with
    | none => simp
    | some es =>
      by_cases hemp : es.isEmpty = true
      · simp [hemp]
      · simp [hemp, eTagVals, List.any_eq_true, List.elem_iff]
  · cases h : f.tagP with
    | none => simp
    | some ps =>
      by_cases hemp : ps.isEmpty = true
      · simp [hemp]
      · simp [hemp, pTagVals, List.any_eq_true, List.elem_iff]

theorem query_no_limit (S : EventStore) (f : Filter) (hlim : f.limit = none) :
    EventStore.query S f =
      (((queryCandidates S f).getD (keysOf S.events)).filterMap (fun id =>
        match mapGet S.events id with
        | some event => if matchesFilter event f then some event else none
        | none => none)).insertionSort (fun a b => b.created_at ≤ a.created_at) := by
  unfold EventStore.query
  rw [hlim]
  rfl

/-- Membership in a no-limit query over a well-formed store: an event is
returned iff it is stored under its id and every filter clause holds. -/
theorem query_mem_wf (S : EventStore) (hWF : EventStoreWF S) (f : Filter)
    (hlim : f.limit = none) (e : Event) :
    e ∈ EventStore.query S f ↔
      mapGet S.events e.id = some e ∧ filterClausesHold f e = true := by
  rw [query_no_limit S f hlim, (List.perm_insertionSort _ _).mem_iff,
    List.mem_filterMap]
  constructor
  · rintro ⟨id, hid, hsome⟩
    cases hget : mapGet S.events id with
    | none =>
      rw [hget] at hsome
      exact absurd hsome (by simp)
    | some ev =>
      rw [hget] at hsome
      by_cases hm : matchesFilter ev f = true
      · have hsome' : (if matchesFilter ev f = true then some ev else none)
            = some e := hsome
        rw [if_pos hm] at hsome'
        have hev : e = ev := (Option.some_injective _ hsome').symm
        subst hev
        have hid_eq : e.id = id := hWF.keyIsId id e hget
        subst hid_eq
        obtain ⟨hK, hP1, hP2, hP3, hP4⟩ := (mem_queryCandidates S hWF f e.id).mp hid
        obtain ⟨hm1, hm2, hm3, hm4⟩ := (matchesFilter_iff e f).mp hm
        refine ⟨hget, (filterClausesHold_iff f e).mpr
          ⟨hP1, ?_, ?_, ?_, hm1, hm2, hm3, hm4⟩⟩
        · cases hh : f.tagH with
          | none => trivial
          | some hs =>
            have hP2' : hs.isEmpty = true ∨
                ∃ e', mapGet S.events e.id = some e' ∧
                  ∃ g ∈ hs, getGroupId e' = some g := by
              rw [hh] at hP2
              exact hP2
            show hs.isEmpty = true ∨ ∃ g ∈ hs, getGroupId e = some g
            rcases hP2' with h | ⟨e', he', hg⟩
            · exact Or.inl h
            · rw [hget] at he'
              obtain rfl : e = e' := Option.some_injective _ he'
              exact Or.inr hg
        · cases ha : f.authors with
          | none => trivial
          | some as =>
            have hP3' : as.isEmpty = true ∨
                ∃ e', mapGet S.events e.id = some e' ∧ e'.pubkey ∈ as := by
              rw [ha] at hP3
              exact hP3
            show as.isEmpty = true ∨ e.pubkey ∈ as
            rcases hP3' with h | ⟨e', he', hp⟩
            · exact Or.inl h
            · rw [hget] at he'
              obtain rfl : e = e' := Option.some_injective _ he'
              exact Or.inr hp
        · cases hk : f.kinds with
          | none => trivial
          | some ks =>
            have hP4' : ks.isEmpty = true ∨
                ∃ e', mapGet S.events e.id = some e' ∧ e'.kind ∈ ks := by
              rw [hk] at hP4
              exact hP4
            show ks.isEmpty = true ∨ e.kind ∈ ks
            rcases hP4' with h | ⟨e', he', hp⟩
            · exact Or.inl h
            · rw [hget] at he'
              obtain rfl : e = e' := Option.some_injective _ he'
              exact Or.inr hp
      · have hsome' : (if matchesFilter ev f = true then some ev else none)
            = some e := hsome
        rw [if_neg hm] at hsome'
        exact absurd hsome' (by simp)
  · rintro ⟨hget, hcl⟩
    obtain ⟨h1, h2, h3, h4, h5, h6, h7, h8⟩ := (filterClausesHold_iff f e).mp hcl
    refine ⟨e.id, ?_, ?_⟩
    · apply (mem_queryCandidates S hWF f e.id).mpr
      refine ⟨(mem_keysOf _ _).mpr (by simp [hget]), h1, ?_, ?_, ?_⟩
      · cases hh : f.tagH with
        | none => trivial
        | some hs =>
          have h2' : hs.isEmpty = true ∨ ∃ g ∈ hs, getGroupId e = some g := by
            rw [hh] at h2
            exact h2
          show hs.isEmpty = true ∨
            ∃ e', mapGet S.events e.id = some e' ∧ ∃ g ∈ hs, getGroupId e' = some g
          rcases h2' with h | hg
          · exact Or.inl h
          · exact Or.inr ⟨e, hget, hg⟩
      · cases ha : f.authors with
        | none => trivial
        | some as =>
          have h3' : as.isEmpty = true ∨ e.pubkey ∈ as := by
            rw [ha] at h3
            exact h3
          show as.isEmpty = true ∨
            ∃ e', mapGet S.events e.id = some e' ∧ e'.pubkey ∈ as
          rcases h3' with h | hp
          · exact Or.inl h
          · exact Or.inr ⟨e, hget, hp⟩
      · cases hk : f.kinds with
        | none => trivial
        | some ks =>
          have h4' : ks.isEmpty = true ∨ e.kind ∈ ks := by
            rw [hk] at h4
            exact h4
          show ks.isEmpty = true ∨
            ∃ e', mapGet S.events e.id = some e' ∧ e'.kind ∈ ks
          rcases h4' with h | hp
          · exact Or.inl h
          · exact Or.inr ⟨e, hget, hp⟩
    · have hm : matchesFilter e f = true :=
        (matchesFilter_iff e f).mpr ⟨h5, h6, h7, h8⟩
      rw [hget]
      show (if matchesFilter e f = true then some e else none) = some e
      rw [if_pos hm]

/-- C7: for a reachable event-store state and a filter whose limit is unset,
an event is in the result of `EventStore.query` if and only if it is in the
store (under its own id) and satisfies every non-empty filter clause (ids,
authors, kinds, #e, #p, #h, since, until) conjunctively; absent or empty
clauses impose no constraint (`filterClausesHold` is that conjunction). -/
theorem query_mem_iff_filterClausesHold (S : EventStore) (hS : StoreReach S)
    (f : Filter) (hlim : f.limit = none) (e : Event) :
    e ∈ EventStore.query S f ↔
      mapGet S.events e.id = some e ∧ filterClausesHold f e = true :=
  query_mem_wf S (storeReach_wf S hS) f hlim e

/-- C7 witness: the concrete two-event store with the match-all filter. -/
theorem query_mem_iff_filterClausesHold_witness :
    evB ∈ EventStore.query store2 {} ∧
      (mapGet store2.events evB.id = some evB ∧
        filterClausesHold {} evB = true) :=
  ⟨(query_mem_iff_filterClausesHold store2
      (StoreReach.add _ evB
        (StoreReach.add _ evA StoreReach.empty (Or.inl rfl)) (Or.inl rfl))
      {} rfl evB).mpr ⟨rfl, rfl⟩,
   ⟨rfl, rfl⟩⟩

theorem query_eq_base (S : EventStore) (f : Filter) :
    EventStore.query S f =
      match f.limit with
      | some l => if l > 0 then (queryBase S f).take l else queryBase S f
      | none => queryBase S f := rfl

theorem queryBase_sorted (S : EventStore) (f : Filter) :
    (queryBase S f).Sorted (fun a b => b.created_at ≤ a.created_at) := by
  haveI : IsTotal Event (fun a b => b.created_at ≤ a.created_at) :=
    ⟨fun a b => Nat.le_total b.created_at a.created_at⟩
  haveI : IsTrans Event (fun a b => b.created_at ≤ a.created_at) :=
    ⟨fun a b c hab hbc => le_trans hbc hab⟩
  exact List.sorted_insertionSort _ _

theorem queryBase_limit_irrel (S : EventStore) (f : Filter) :
    queryBase S { f with limit := none } = queryBase S f := by
  obtain ⟨i, a, k, te, tp, th, s, u, lim⟩ := f
  rfl

/-- C10: `EventStore.query` always returns a list sorted by `created_at`
in non-increasing order, and with a positive `limit` it returns the first
`limit` entries of the no-limit (sorted) result: at most `limit` events,
every one of which has `created_at` at least that of every omitted event. -/
theorem query_sorted_and_limit (S : EventStore) (f : Filter) :
    (EventStore.query S f).Sorted (fun a b => b.created_at ≤ a.created_at) ∧
    ∀ l, f.limit = some l → 0 < l →
      (EventStore.query S f).length ≤ l ∧
      EventStore.query S f
        = (EventStore.query S { f with limit := none }).take l ∧
      ∀ a ∈ EventStore.query S f,
        ∀ b ∈ (EventStore.query S { f with limit := none }).drop l,
          b.created_at ≤ a.created_at := by
  have hbase := queryBase_sorted S f
  have hnol : EventStore.query S { f with limit := none } = queryBase S f :=
    (query_eq_base S _).trans (queryBase_limit_irrel S f)
  constructor
  · rw [query_eq_base S f]
    cases hl : f.limit with
    | none => exact hbase
    | some l =>
      by_cases hpos : l > 0
      · show ((if l > 0 then (queryBase S f).take l else queryBase S f)).Sorted _
        rw [if_pos hpos]
        exact List.Pairwise.sublist (List.take_sublist _ _) hbase
      · show ((if l > 0 then (queryBase S f).take l else queryBase S f)).Sorted _
        rw [if_neg hpos]
        exact hbase
  · intro l hl hpos
    have hq : EventStore.query S f = (queryBase S f).take l := by
      rw [query_eq_base S f, hl]
      show (if l > 0 then (queryBase S f).take l else queryBase S f) = _
      rw [if_pos hpos]
    refine ⟨?_, ?_, ?_⟩
    · rw [hq]
      exact List.length_take_le _ _
    · rw [hq, hnol]
    · intro a ha b hb
      rw [hq] at ha
      rw [hnol] at hb
      exact hbase.rel_of_mem_take_of_mem_drop ha hb

/-- C10 witness: with `limit: 1` on the two-event store the query is the
one-element truncation of the no-limit query. -/
theorem query_sorted_and_limit_witness :
    fLim1.limit = some 1 ∧ 0 < 1 ∧
      EventStore.query store2 fLim1
        = (EventStore.query store2 { fLim1 with limit := none }).take 1 :=
  ⟨rfl, Nat.one_pos,
    ((query_sorted_and_limit store2 fLim1).2 1 rfl Nat.one_pos).2.1⟩

-- ============================================================================
-- C8 — duplicate EVENT submission
-- ============================================================================

/-- Adding an event that is already fully present (stored under its id,
indexed in all three indexes, its prefix in a non-overfull window) leaves
the store unchanged. -/
theorem add_noop (S : EventStore) (e : Event) (g : String)
    (hev : mapGet S.events e.id = some e)
    (hg : getGroupId e = some g)
    (hgi : e.id ∈ (mapGet S.byGroup g).getD [])
    (hai : e.id ∈ (mapGet S.byAuthor e.pubkey).getD [])
    (hki : e.id ∈ (mapGet S.byKind e.kind).getD [])
    (hpf : pfx8 e.id ∈ S.recentEventPrefixes)
    (hlen : S.recentEventPrefixes.length ≤ 1000) :
    EventStore.add S e = S := by
  have h1 : mapSet S.events e.id e = S.events := mapSet_eq_self _ _ _ hev
  have h2 : (match getGroupId e with
      | some groupId =>
        mapSet S.byGroup groupId (setAdd ((mapGet S.byGroup groupId).getD []) e.id)
      | none => S.byGroup) = S.byGroup := by
    rw [hg]
    show mapSet S.byGroup g (setAdd ((mapGet S.byGroup g).getD []) e.id) = S.byGroup
    cases hbg : mapGet S.byGroup g with
    | none =>
      rw [hbg] at hgi
      simp at hgi
    | some s =>
      rw [hbg] at hgi
      have hgi' : e.id ∈ s := hgi
      simp only [Option.getD_some]
      rw [setAdd_of_mem hgi']
      exact mapSet_eq_self _ _ _ hbg
  have h3 : mapSet S.byAuthor e.pubkey
      (setAdd ((mapGet S.byAuthor e.pubkey).getD []) e.id) = S.byAuthor := by
    cases hba : mapGet S.byAuthor e.pubkey with
    | none =>
      rw [hba] at hai
      simp at hai
    | some s =>
      rw [hba] at hai
      have hai' : e.id ∈ s := hai
      simp only [Option.getD_some]
      rw [setAdd_of_mem hai']
      exact mapSet_eq_self _ _ _ hba
  have h4 : mapSet S.byKind e.kind
      (setAdd ((mapGet S.byKind e.kind).getD []) e.id) = S.byKind := by
    cases hbk : mapGet S.byKind e.kind with
    | none =>
      rw [hbk] at hki
      simp at hki
    | some s =>
      rw [hbk] at hki
      have hki' : e.id ∈ s := hki
      simp only [Option.getD_some]
      rw [setAdd_of_mem hki']
      exact mapSet_eq_self _ _ _ hbk
  have h5 : addPfx S.recentEventPrefixes (pfx8 e.id) = S.recentEventPrefixes := by
    unfold addPfx
    rw [setAdd_of_mem hpf]
    show (if S.recentEventPrefixes.length > 1000 then
        S.recentEventPrefixes.drop (S.recentEventPrefixes.length - 500)
      else S.recentEventPrefixes) = S.recentEventPrefixes
    rw [if_neg (by omega)]
  show EventStore.mk (mapSet S.events e.id e)
      (match getGroupId e with
       | some groupId =>
         mapSet S.byGroup groupId (setAdd ((mapGet S.byGroup groupId).getD []) e.id)
       | none => S.byGroup)
      (mapSet S.byAuthor e.pubkey
        (setAdd ((mapGet S.byAuthor e.pubkey).getD []) e.id))
      (mapSet S.byKind e.kind
        (setAdd ((mapGet S.byKind e.kind).getD []) e.id))
      (addPfx S.recentEventPrefixes (pfx8 e.id)) = S
  rw [h1, h2, h3, h4, h5]

/-- C8 counterexample: resubmitting the already-stored `chatEvent` yields a
positive OK and leaves the relay state unchanged, but the handler also sends
the event to the subscriber again (a second `EVENT` frame), so "no
re-broadcast" fails. -/
theorem duplicate_submission_rebroadcasts :
    (handleNip29Event sigTrue 50 dupRelay 0 chatEvent).2
      = [(0, Frame.ok "e1" true ""), (0, Frame.event "s1" chatEvent)] ∧
    (handleNip29Event sigTrue 50 dupRelay 0 chatEvent).1 = dupRelay :=
  ⟨rfl, rfl⟩

/-- C8 (amended): resubmitting an already fully stored ordinary group chat
event that passes validation and membership authorization yields a positive
OK and leaves the relay state unchanged, but the event is broadcast to the
matching subscriptions again. -/
theorem duplicate_submission_contract
    (sig : SigFn) (now : Nat) (R : RelayState) (ci : Nat) (e : Event) (g : String)
    (hg : getGroupId e = some g)
    (hgroup : (mapGet R.groups g).isSome = true)
    (hsig : sig e = true)
    (hkind : e.kind = 9)
    (hlate : now - e.created_at ≤ R.config.latePublicationWindow)
    (hmem : e.pubkey ∈ (mapGet R.members g).getD [])
    (hev : mapGet R.eventStore.events e.id = some e)
    (hgi : e.id ∈ (mapGet R.eventStore.byGroup g).getD [])
    (hai : e.id ∈ (mapGet R.eventStore.byAuthor e.pubkey).getD [])
    (hki : e.id ∈ (mapGet R.eventStore.byKind e.kind).getD [])
    (hpf : pfx8 e.id ∈ R.eventStore.recentEventPrefixes)
    (hlen : R.eventStore.recentEventPrefixes.length ≤ 1000) :
    handleNip29Event sig now R ci e
      = (R, (ci, Frame.ok e.id true "") :: broadcastEvent R e) := by
  obtain ⟨grp, hgrp⟩ := Option.isSome_iff_exists.mp hgroup
  have hcontains : ((mapGet R.members g).getD []).contains e.pubkey = true :=
    List.elem_iff.mpr hmem
  have hadd : EventStore.add R.eventStore e = R.eventStore :=
    add_noop R.eventStore e g hev hg hgi hai hki hpf hlen
  have hR2 : { R with eventStore := EventStore.add R.eventStore e } = R := by
    rw [hadd]
  have hlate' : ¬ (now - e.created_at > R.config.latePublicationWindow) := by
    omega
  have hval9 : validateNip29Event sig now e
      { requirePreviousRefs :=
          !(isRelayMetadataEvent 9) && !(isModerationEvent 9),
        minPreviousRefs := some 0,
        latePublicationWindow := some R.config.latePublicationWindow,
        currentTime := none } = .ok () := by
    unfold validateNip29Event
    rw [hkind]
    rw [if_neg (by simp [hsig])]
    rw [hg]
    show (if now - e.created_at > R.config.latePublicationWindow then
        (Except.error "Late publication rejected" : Except String Unit)
      else Except.ok ()) = Except.ok ()
    rw [if_neg hlate']
  have hauth : checkEventAuthorization now R ci e g = (true, []) := by
    unfold checkEventAuthorization
    rw [hkind]
    rw [if_neg (by decide)]
    show (match KG.checkAuthorization now
        (CapStore.getCapabilitiesForHolder now R.capabilityStore e.pubkey)
        e.pubkey "write" { eventKind := some 9, eventTags := some e.tags } with
      | AuthResult.authorized _ => ((true : Bool), ([] : List Output))
      | AuthResult.denied _ =>
        if ((mapGet R.members g).getD []).contains e.pubkey then (true, [])
        else (false, [(ci, Frame.ok e.id false "restricted: not authorized")]))
      = (true, [])
    cases hres : KG.checkAuthorization now
        (CapStore.getCapabilitiesForHolder now R.capabilityStore e.pubkey)
        e.pubkey "write" { eventKind := some 9, eventTags := some e.tags } with
    | authorized c => rfl
    | denied msg =>
      show (if ((mapGet R.members g).getD []).contains e.pubkey = true
          then ((true : Bool), ([] : List Output))
          else (false, [(ci, Frame.ok e.id false "restricted: not authorized")]))
        = (true, [])
      rw [if_pos hcontains]
  unfold handleNip29Event
  simp only [hg, hkind]
  rw [if_neg (by
    rw [hgrp]
    simp)]
  simp only [hval9]
  simp only [hauth]
  show ({ R with eventStore := EventStore.add R.eventStore e },
      (ci, Frame.ok e.id true "")
        :: broadcastEvent { R with eventStore := EventStore.add R.eventStore e } e)
    = (R, (ci, Frame.ok e.id true "") :: broadcastEvent R e)
  rw [hR2]

/-- C8 witness: the amended contract at the concrete duplicate submission. -/
theorem duplicate_submission_contract_witness :
    mapGet dupRelay.eventStore.events chatEvent.id = some chatEvent ∧
      handleNip29Event sigTrue 50 dupRelay 0 chatEvent
        = (dupRelay,
            (0, Frame.ok chatEvent.id true "")
              :: broadcastEvent dupRelay chatEvent) :=
  ⟨rfl,
    duplicate_submission_contract sigTrue 50 dupRelay 0 chatEvent "g"
      rfl rfl rfl rfl (by decide) (by decide) rfl (by decide) (by decide)
      (by decide) (by decide) (by decide)⟩

end KG
